import Mathlib

/-!
Verification of the `tarqd/ldactl` SSE client pipeline against its
natural-language specification.

The development shallowly embeds the relevant Rust sources:

* `tokio-sse-codec/src/field_decoder.rs` — the SSE field scanner
  (`SseFieldDecoder`), a state machine that splits a byte stream into
  field frames and empty-line markers;
* `tokio-sse-codec/src/decoder_impl.rs` — the SSE decoder
  (`SseDecoderImpl`), which consumes field frames, accumulates the
  `data`/`event`/`id` buffers and dispatches `Frame` values;
* `tokio-sse-codec/src/encoder.rs` — the SSE encoder (`SseEncoder`);
* `src/autoconfigclient.rs` — the autoconfig merge engine;
* `ldactl/src/message_event_source.rs` — the `Event → Message` adapter;
* `ldactl/src/eventsource/retryable.rs` — the error classifier;
* `ldactl/src/eventsource/eventsource.rs` — the reconnecting
  event-source state machine;
* `ldactl/src/eventsource/sse_backoff.rs` — the minimum-duration
  backoff wrapper.

Bytes are modelled as natural numbers (`List Nat`); Rust `u64` overflow
is modelled with explicit `2 ^ 64` bounds.  Rust `Duration` values are
modelled by their total number of nanoseconds.
-/

/-! ## Byte-buffer helpers (`bufext.rs`) -/

/-- Byte value of the line feed character. -/
def lfByte : Nat := 10

/-- Byte value of the carriage return character. -/
def crByte : Nat := 13

/-- Byte value of the colon character. -/
def colonByte : Nat := 58

/-- Byte value of the space character. -/
def spaceByte : Nat := 32

/-- ASCII bytes of a string (all strings used by the codec are ASCII). -/
def strBytes (s : String) : List Nat := s.data.map Char.toNat

/-- `BufMutExt::rbump`: remove the last byte of a buffer if it is
non-empty (`set_len(len - 1)`). -/
def rbump (l : List Nat) : List Nat := l.dropLast

/-- `BufMutExt::rbump_if`: remove the last byte when it equals `b`. -/
def rbumpIf (b : Nat) (l : List Nat) : List Nat :=
  if l.getLast? = some b then l.dropLast else l

/-- `BufExt::bump_if`: drop the first byte when it equals `b`. -/
def bumpIf (b : Nat) (l : List Nat) : List Nat :=
  if l.head? = some b then l.drop 1 else l

/-- Position of the first byte satisfying `p`, starting the count at
`i` (helper for the scanner's resumable searches). -/
def findIdxFromAux (p : Nat → Bool) : List Nat → Nat → Option Nat
  | [], _ => none
  | b :: r, i => if p b then some i else findIdxFromAux p r (i + 1)

/-- `slice[start..].iter().position(p).map(|off| start + off)`. -/
def findFrom (p : Nat → Bool) (l : List Nat) (start : Nat) : Option Nat :=
  findIdxFromAux p (l.drop start) start

/-! ## Field scanner data model (`field_decoder.rs`) -/

/-- `FieldKind`: classification of an SSE field line. -/
inductive FieldKind where
  | dataKind
  | eventKind
  | retryKind
  | commentKind
  | idKind
  | unknownField (name : List Nat)
deriving DecidableEq, Repr

/-- `FieldFrame`: one output of the field scanner — a field with its
raw value bytes, or an empty-line marker. -/
inductive FieldFrame where
  | fieldOf (kind : FieldKind) (value : List Nat)
  | emptyLine
deriving DecidableEq, Repr

/-- `State` of `SseFieldDecoder`: awaiting the BOM, awaiting a frame,
scanning a field name (with resume index for the colon search) or
scanning a value (with resume index for the newline search). -/
inductive ScanState where
  | bom
  | nextFrame
  | fieldAt (nextColonIndex : Nat)
  | valueAt (kind : FieldKind) (nextLineIndex : Nat)
deriving DecidableEq, Repr

/-- Map a field-name byte string to its `FieldKind`
(`match field_kind.as_ref()` in `field_decoder.rs`). -/
def fieldKindOfName (name : List Nat) : FieldKind :=
  if name = strBytes "data" then .dataKind
  else if name = strBytes "event" then .eventKind
  else if name = strBytes "retry" then .retryKind
  else if name = strBytes "id" then .idKind
  else .unknownField name

/-- `State::Value` handling in `SseFieldDecoder::decode`: search for the
newline terminating the value; the returned value keeps the newline and
has one optional leading space stripped. -/
def scanValue (kind : FieldKind) (nextLine : Nat) (src : List Nat) :
    Option FieldFrame × ScanState × List Nat :=
  if src.isEmpty then (none, .valueAt kind nextLine, src)
  else
    match findFrom (fun b => b = lfByte) src nextLine with
    | some i =>
        let value := bumpIf spaceByte (src.take (i + 1))
        (some (.fieldOf kind value), .nextFrame, src.drop (i + 1))
    | none => (none, .valueAt kind src.length, src)

/-- `State::Field` handling in `SseFieldDecoder::decode`: search for the
first colon or newline; a colon starts the value, a newline makes the
whole line an unknown field with empty value. -/
def scanField (nextColon : Nat) (src : List Nat) :
    Option FieldFrame × ScanState × List Nat :=
  if src.isEmpty then (none, .fieldAt nextColon, src)
  else
    match findFrom (fun b => b = colonByte || b = lfByte) src nextColon with
    | some i =>
        if src.getD i 0 = colonByte then
          scanValue (fieldKindOfName (src.take i)) 0 (src.drop (i + 1))
        else
          (some (.fieldOf (.unknownField (src.take (i + 1))) []), .nextFrame,
            src.drop (i + 1))
    | none => (none, .fieldAt src.length, src)

/-- `State::NextFrame` handling in `SseFieldDecoder::decode`: a colon
starts a comment value, a newline (optionally preceded by a carriage
return) is an empty line, anything else starts a field name. -/
def scanNextFrame (src : List Nat) : Option FieldFrame × ScanState × List Nat :=
  match src with
  | [] => (none, .nextFrame, src)
  | b :: rest =>
      if b = colonByte then scanValue .commentKind 0 rest
      else if b = crByte ∧ rest.head? = some lfByte then
        (some .emptyLine, .nextFrame, rest.drop 1)
      else if b = lfByte then (some .emptyLine, .nextFrame, rest)
      else scanField 0 src

/-- `State::Bom` handling in `SseFieldDecoder::decode`: skip a complete
UTF-8 BOM, hold a partial BOM, otherwise continue with the bytes as-is. -/
def scanBom (src : List Nat) : Option FieldFrame × ScanState × List Nat :=
  match src with
  | [] => (none, .bom, src)
  | 0xEF :: 0xBB :: 0xBF :: rest => scanNextFrame rest
  | [0xEF] => (none, .bom, src)
  | [0xEF, 0xBB] => (none, .bom, src)
  | _ => scanNextFrame src

/-- `SseFieldDecoder::decode`: one call of the scanner on buffer `src`,
returning the produced field frame (or `none` for "need more input"),
the successor scanner state and the remaining bytes. -/
def scanDecode : ScanState → List Nat → Option FieldFrame × ScanState × List Nat
  | .bom, src => scanBom src
  | .nextFrame, src => scanNextFrame src
  | .fieldAt n, src => scanField n src
  | .valueAt k n, src => scanValue k n src

/-! ## SSE frames (`lib.rs`) and decoder state (`decoder_impl.rs`) -/

/-- `Frame<Bytes>`: a decoded SSE frame.  `Event` carries the optional
id, the event name and the data bytes; `Retry` carries a Rust
`Duration`, modelled by its total nanoseconds. -/
inductive SseFrame where
  | comment (value : List Nat)
  | event (id : Option (List Nat)) (name : List Nat) (data : List Nat)
  | retry (nanos : Nat)
deriving DecidableEq, Repr

/-- `Duration::from_millis`. -/
def durationFromMillis (ms : Nat) : Nat := ms * 1000000

/-- `Duration::as_millis` (integer division truncates sub-millisecond
precision, exactly as in Rust). -/
def durationAsMillis (nanos : Nat) : Nat := nanos / 1000000

/-- Bytes of the default event type `"message"`. -/
def messageBytes : List Nat := strBytes "message"

/-- State of `SseDecoderImpl`.  `eventType = none` models
`Cow::Borrowed("message")` (which `buf_len` counts as zero bytes);
`eventType = some v` models `Cow::Owned(v)`. -/
structure DecoderState where
  scan : ScanState
  dataBuf : List Nat
  eventType : Option (List Nat)
  eventId : List Nat
  maxBufLen : Nat
  isClosed : Bool
deriving DecidableEq, Repr

/-- `SseDecoderImpl::with_max_size`. -/
def initDecoder (maxBufSize : Nat) : DecoderState :=
  { scan := .bom
    dataBuf := []
    eventType := none
    eventId := []
    maxBufLen := maxBufSize
    isClosed := false }

/-- Bytes of the current event type (`Cow::Borrowed` is `"message"`). -/
def eventTypeBytes : Option (List Nat) → List Nat
  | none => messageBytes
  | some v => v

/-- `SseDecoderImpl::buf_len`: data buffer plus event id plus the event
type, the latter counted only when owned. -/
def bufLen (st : DecoderState) : Nat :=
  st.dataBuf.length + st.eventId.length +
    (match st.eventType with
     | none => 0
     | some v => v.length)

/-- `SseDecoderImpl::buf_remaining` (saturating subtraction). -/
def bufRemaining (st : DecoderState) : Nat := st.maxBufLen - bufLen st

/-- `SseDecoderImpl::close`: `reset()` followed by `is_closed = true`. -/
def closeDecoder (st : DecoderState) : DecoderState :=
  { st with
    scan := .bom
    dataBuf := []
    eventType := none
    eventId := []
    isClosed := true }

/-- `SseDecodeError`: the decoder's error kinds. -/
inductive SseDecodeErr where
  | ioErr
  | unexpectedEof
  | utf8Err
  | exceededSizeLimit (limit incoming consumed : Nat)
deriving DecidableEq, Repr

/-! ## UTF-8 validation (`String::from_utf8`) -/

/-- Is `b` a UTF-8 continuation byte (`0x80..=0xBF`)? -/
def isCont (b : Nat) : Bool := 0x80 ≤ b && b ≤ 0xBF

/-- Standard UTF-8 validity of a byte sequence, including the overlong,
surrogate and out-of-range exclusions enforced by `String::from_utf8`. -/
def isValidUtf8 : List Nat → Bool
  | [] => true
  | b :: rest =>
      if b ≤ 0x7F then isValidUtf8 rest
      else if 0xC2 ≤ b && b ≤ 0xDF then
        match rest with
        | c1 :: r => isCont c1 && isValidUtf8 r
        | [] => false
      else if b = 0xE0 then
        match rest with
        | c1 :: c2 :: r => (0xA0 ≤ c1 && c1 ≤ 0xBF) && isCont c2 && isValidUtf8 r
        | _ => false
      else if (0xE1 ≤ b && b ≤ 0xEC) || b = 0xEE || b = 0xEF then
        match rest with
        | c1 :: c2 :: r => isCont c1 && isCont c2 && isValidUtf8 r
        | _ => false
      else if b = 0xED then
        match rest with
        | c1 :: c2 :: r => (0x80 ≤ c1 && c1 ≤ 0x9F) && isCont c2 && isValidUtf8 r
        | _ => false
      else if b = 0xF0 then
        match rest with
        | c1 :: c2 :: c3 :: r =>
            (0x90 ≤ c1 && c1 ≤ 0xBF) && isCont c2 && isCont c3 && isValidUtf8 r
        | _ => false
      else if 0xF1 ≤ b && b ≤ 0xF3 then
        match rest with
        | c1 :: c2 :: c3 :: r => isCont c1 && isCont c2 && isCont c3 && isValidUtf8 r
        | _ => false
      else if b = 0xF4 then
        match rest with
        | c1 :: c2 :: c3 :: r =>
            (0x80 ≤ c1 && c1 ≤ 0x8F) && isCont c2 && isCont c3 && isValidUtf8 r
        | _ => false
      else false

/-- `get_event_type` in `decoder_impl.rs`: intern `"message"` as the
borrowed form, otherwise validate UTF-8 and own the bytes. -/
def getEventType (v : List Nat) : Except SseDecodeErr (Option (List Nat)) :=
  if v = messageBytes then .ok none
  else if isValidUtf8 v then .ok (some v) else .error .utf8Err

/-! ## Integer parsing (`u64::from_str`) -/

/-- Is `b` an ASCII digit? -/
def isAsciiDigit (b : Nat) : Bool := 48 ≤ b && b ≤ 57

/-- One more than `u64::MAX`. -/
def u64Limit : Nat := 2 ^ 64

/-- Base-ten value of a digit string (no overflow handling; used below
with an explicit `2 ^ 64` bound). -/
def digitsValue (l : List Nat) : Nat :=
  l.foldl (fun acc b => acc * 10 + (b - 48)) 0

/-- Rust `u64::from_str`: an optional leading `+` sign followed by one
or more ASCII digits whose base-ten value fits in a `u64`.  The parser
strips a leading `-` only for signed integer types, so for `u64` a
minus sign is just a non-digit and the parse fails. -/
def parseU64 (s : List Nat) : Option Nat :=
  if s.head? = some 43 then
    if s.tail ≠ [] ∧ s.tail.all isAsciiDigit ∧ digitsValue s.tail < u64Limit then
      some (digitsValue s.tail)
    else none
  else
    if s ≠ [] ∧ s.all isAsciiDigit ∧ digitsValue s < u64Limit then
      some (digitsValue s)
    else none

/-! ## SSE decoder dispatch (`SseDecoderImpl::decode`) -/

/-- Outcome of handling one field frame inside the decode loop: continue
the loop, emit a frame and return, return "need more input", or fail. -/
inductive Directive where
  | continueLoop
  | emit (frame : SseFrame)
  | needMoreInput
  | errorOut (e : SseDecodeErr)
deriving DecidableEq, Repr

/-- The body of the `while let` loop in `SseDecoderImpl::decode`: handle
one field frame, producing a directive and the successor decoder state.
The scanner state inside `st` is assumed to have been updated already.
On an oversized `data:` value the code calls `self.close()` first and
only then reads `self.buf_len()` for the error's `consumed_len`, so the
reported consumed count is the post-close one (always zero). -/
def handleFrame (st : DecoderState) : FieldFrame → Directive × DecoderState
  | .fieldOf .dataKind value =>
      if value.length > bufRemaining st then
        (.errorOut (.exceededSizeLimit st.maxBufLen value.length
            (bufLen (closeDecoder st))),
          closeDecoder st)
      else if 2 ≤ value.length ∧ value.drop (value.length - 2) = [crByte, lfByte] then
        (.continueLoop,
          { st with dataBuf := st.dataBuf ++ value.take (value.length - 2) ++ [lfByte] })
      else
        (.continueLoop, { st with dataBuf := st.dataBuf ++ value })
  | .fieldOf .eventKind value =>
      let v := rbumpIf crByte (rbump value)
      if eventTypeBytes st.eventType = v then (.continueLoop, st)
      else
        match getEventType v with
        | .ok t => (.continueLoop, { st with eventType := t })
        | .error e => (.errorOut e, st)
  | .fieldOf .retryKind value =>
      let v := rbumpIf crByte (rbump value)
      match parseU64 v with
      | some n => (.emit (.retry (durationFromMillis n)), st)
      | none => (.needMoreInput, st)
  | .fieldOf .commentKind value =>
      (.emit (.comment (rbumpIf crByte (rbump value))), st)
  | .fieldOf .idKind value =>
      let v := rbumpIf crByte (rbump value)
      if 0 ∈ v then (.continueLoop, st)
      else if v = st.eventId then (.continueLoop, st)
      else if isValidUtf8 v then (.continueLoop, { st with eventId := v })
      else (.errorOut .utf8Err, st)
  | .fieldOf (.unknownField _) _ => (.continueLoop, st)
  | .emptyLine =>
      let db := rbump st.dataBuf
      if db.isEmpty then
        (.continueLoop, { st with dataBuf := db, eventType := none })
      else
        (.emit (.event (if st.eventId.isEmpty then none else some st.eventId)
            (eventTypeBytes st.eventType) db),
          { st with dataBuf := [], eventType := none })

/-- Result of one `SseDecoderImpl::decode` call: a frame, "need more
input" (`Ok(None)`) or an error. -/
inductive StepOut where
  | frame (f : SseFrame)
  | needMore
  | err (e : SseDecodeErr)
deriving DecidableEq, Repr

/-- Fueled form of `SseDecoderImpl::decode`: a closed decoder consumes
and discards everything; otherwise run the scanner and handle field
frames until a frame is emitted, input runs out or an error occurs.  The
fuel only bounds the recursion; `sseDecode` supplies enough of it. -/
def sseDecodeF : Nat → DecoderState → List Nat → StepOut × DecoderState × List Nat
  | 0, st, src => (.needMore, st, src)
  | fuel + 1, st, src =>
      if st.isClosed then (.needMore, st, [])
      else
        match scanDecode st.scan src with
        | (none, s2, src2) => (.needMore, { st with scan := s2 }, src2)
        | (some ff, s2, src2) =>
            match handleFrame { st with scan := s2 } ff with
            | (.continueLoop, st2) => sseDecodeF fuel st2 src2
            | (.emit f, st2) => (.frame f, st2, src2)
            | (.needMoreInput, st2) => (.needMore, st2, src2)
            | (.errorOut e, st2) => (.err e, st2, src2)

/-- `SseDecoderImpl::decode` on buffer `src`. -/
def sseDecode (st : DecoderState) (src : List Nat) :
    StepOut × DecoderState × List Nat :=
  sseDecodeF (src.length + 1) st src

/-- Fueled driver that calls `sseDecode` repeatedly on the buffer, the
way `FramedRead` drives a decoder over a complete input, collecting all
frames until no further progress is possible. -/
def decodeAllF : Nat → DecoderState → List Nat →
    Except SseDecodeErr (List SseFrame × DecoderState)
  | 0, st, _ => .ok ([], st)
  | fuel + 1, st, src =>
      match sseDecode st src with
      | (.frame f, st2, src2) =>
          match decodeAllF fuel st2 src2 with
          | .ok (fs, stf) => .ok (f :: fs, stf)
          | .error e => .error e
      | (.err e, _, _) => .error e
      | (.needMore, st2, src2) =>
          if src2.length < src.length then decodeAllF fuel st2 src2
          else .ok ([], st2)

/-- Decode a complete byte list, collecting all produced frames. -/
def decodeAll (st : DecoderState) (src : List Nat) :
    Except SseDecodeErr (List SseFrame × DecoderState) :=
  decodeAllF (src.length + 1) st src

/-! ## SSE encoder (`encoder.rs`) -/

/-- `slice::split(|b| b == &b'\n')`: split on newlines; the empty list
splits into one empty piece and separators are dropped. -/
def splitOnNl : List Nat → List (List Nat)
  | [] => [[]]
  | b :: rest =>
      if b = lfByte then [] :: splitOnNl rest
      else
        match splitOnNl rest with
        | h :: t => (b :: h) :: t
        | [] => [[b]]

/-- Decimal digit bytes of `n`, least significant first. -/
def natDigitsRev (n : Nat) : List Nat :=
  if h : n = 0 then [] else (n % 10 + 48) :: natDigitsRev (n / 10)
decreasing_by exact Nat.div_lt_self (Nat.pos_of_ne_zero h) (by omega)

/-- Decimal representation of `n` (`u128::to_string`). -/
def natToDecimal (n : Nat) : List Nat :=
  if n = 0 then [48] else (natDigitsRev n).reverse

/-- `SseEncoder` state: the sticky `last_id`. -/
structure EncoderState where
  lastId : List Nat
deriving DecidableEq, Repr

/-- `SseEncoder::encode` of one frame: returns the wire bytes appended
to the destination and the successor encoder state.  Comments are split
into one `": line\n"` per line; events emit an `id:` line when the
effective id is non-empty, an `event:` line, one `data:` line per
newline-separated piece of the data, and a terminating blank line;
retries emit the duration in whole milliseconds. -/
def sseEncode (st : EncoderState) : SseFrame → List Nat × EncoderState
  | .comment c =>
      ((splitOnNl c).flatMap (fun line => strBytes ": " ++ line ++ [lfByte]), st)
  | .event id name data =>
      let effId := match id with
        | some v => v
        | none => st.lastId
      let idPart := if effId.isEmpty then [] else strBytes "id: " ++ effId ++ [lfByte]
      let evPart := strBytes "event: " ++ name ++ [lfByte]
      let dataPart := (splitOnNl data).flatMap
        (fun piece => strBytes "data: " ++ piece ++ [lfByte])
      (idPart ++ evPart ++ dataPart ++ [lfByte], { lastId := effId })
  | .retry nanos =>
      (strBytes "retry: " ++ natToDecimal (durationAsMillis nanos) ++ [lfByte], st)

/-- Encode a sequence of frames, threading the sticky id. -/
def encodeAll (st : EncoderState) : List SseFrame → List Nat × EncoderState
  | [] => ([], st)
  | f :: fs =>
      let (bytes, st2) := sseEncode st f
      let (rest, stf) := encodeAll st2 fs
      (bytes ++ rest, stf)

/-- Fresh encoder (`SseEncoder::new`). -/
def initEncoder : EncoderState := { lastId := [] }

/-! ## Domain messages (`messages.rs`) -/

/-- `EnvironmentConfig`: a versioned environment record.  The string
fields are carried verbatim; `sdkKey` models `Expirable<ServerSideKey>`
as the current value plus the optional expiring value with its expiry
timestamp. -/
structure EnvironmentConfig where
  envId : String
  envKey : String
  envName : String
  mobKey : String
  projKey : String
  projName : String
  sdkKey : String
  expiringSdkKey : Option (String × Nat)
  defaultTtl : Nat
  secureMode : Bool
  version : Nat
deriving DecidableEq, Repr

/-- The in-memory environment map `HashMap<ClientSideId,
EnvironmentConfig>`, modelled as an association list keyed by the
environment id. -/
def EnvMap : Type := List (String × EnvironmentConfig)

instance : DecidableEq EnvMap := by
  unfold EnvMap
  infer_instance

instance : Repr EnvMap := by
  unfold EnvMap
  infer_instance

/-- `HashMap::get`/`Entry` lookup. -/
def lookupEnv (m : EnvMap) (k : String) : Option EnvironmentConfig :=
  match m with
  | [] => none
  | (k2, v) :: rest => if k2 = k then some v else lookupEnv rest k

/-- `HashMap` insert-or-replace. -/
def insertEnv (m : EnvMap) (k : String) (v : EnvironmentConfig) : EnvMap :=
  match m with
  | [] => [(k, v)]
  | (k2, v2) :: rest =>
      if k2 = k then (k, v) :: rest else (k2, v2) :: insertEnv rest k v

/-- `HashMap` remove (`Entry::remove`). -/
def removeEnv (m : EnvMap) (k : String) : EnvMap :=
  match m with
  | [] => []
  | (k2, v2) :: rest => if k2 = k then rest else (k2, v2) :: removeEnv rest k

/-- `Message`: the typed domain messages parsed from SSE events. -/
inductive Message where
  | put (path : String) (environments : EnvMap)
  | patch (envId : String) (environment : EnvironmentConfig)
  | delete (envId : String) (version : Nat)
  | reconnect
deriving DecidableEq

/-- `ConfigChangeEvent`: the change stream emitted by the merge engine. -/
inductive ConfigChangeEvent where
  | initialized
  | insert (env : EnvironmentConfig)
  | update (previous current : EnvironmentConfig)
  | deleteEv (env : EnvironmentConfig)
deriving DecidableEq, Repr

/-! ## Event-source state machine (`ldactl/src/eventsource`) -/

/-- The status-and-kind content of a `reqwest::Error` that the
`Retryable` classifier inspects. -/
structure ReqwestError where
  status : Option Nat
  isConnect : Bool
  isTimeout : Bool
  isDecode : Bool
  isRequest : Bool
  isBody : Bool
deriving DecidableEq, Repr

/-- `StatusCode::is_server_error` (`500..=599`). -/
def isServerError (s : Nat) : Bool := 500 ≤ s && s ≤ 599

/-- `impl Retryable for reqwest::Error` in `retryable.rs`: with a
status, server errors and `BAD_REQUEST | REQUEST_TIMEOUT |
TOO_MANY_REQUESTS` are retryable; without one, connect, timeout, decode
and non-request body errors are. -/
def reqwestIsRetryable (e : ReqwestError) : Bool :=
  match e.status with
  | some status =>
      if isServerError status then true
      else if status = 400 || status = 408 || status = 429 then true
      else false
  | none => e.isConnect || e.isTimeout || e.isDecode || (!e.isRequest && e.isBody)

/-- `EventSourceError` of `ldactl/src/eventsource/eventsource.rs`. -/
inductive EventSourceError where
  | requestCloneError
  | requestError (e : ReqwestError)
  | maxRetriesExceeded (attempts : Nat)
  | decodeError
  | readTimeoutElapsed
  | ioError
deriving DecidableEq, Repr

/-- `impl Retryable for EventSourceError`: clone and retry-exhaustion
errors are fatal, request errors delegate, decode, read-timeout and
I/O errors are retryable. -/
def esIsRetryable : EventSourceError → Bool
  | .requestCloneError => false
  | .requestError e => reqwestIsRetryable e
  | .maxRetriesExceeded _ => false
  | .decodeError => true
  | .readTimeoutElapsed => true
  | .ioError => true

/-- Transport-level SSE event (string-typed form yielded to consumers). -/
structure TEvent where
  id : Option String
  name : String
  data : String
deriving DecidableEq, Repr

/-- Transport-level SSE frame produced by the decoding layer. -/
inductive TFrame where
  | event (e : TEvent)
  | comment (c : String)
  | retry (nanos : Nat)
deriving DecidableEq, Repr

/-- Model of `MinimumBackoffDuration` over a deterministic inner
policy: `script` lists the inner `next_backoff` results in order
(durations in nanoseconds; an exhausted position yields `none`), `pos`
is how many have been consumed, and `floor` is the dynamic minimum. -/
structure BackoffModel where
  script : List (Option Nat)
  pos : Nat
  floor : Nat
deriving DecidableEq, Repr

/-- `MinimumBackoffDuration::next_backoff`: the inner result clamped to
the floor, advancing the inner policy. -/
def backoffNext (b : BackoffModel) : Option Nat × BackoffModel :=
  ((b.script.getD b.pos none).map (fun d => max d b.floor),
    { b with pos := b.pos + 1 })

/-- `MinimumBackoffDuration::reset`: reset the inner policy, keep the
floor. -/
def backoffReset (b : BackoffModel) : BackoffModel := { b with pos := 0 }

/-- `MinimumBackoffDuration::set_minimum_duration`. -/
def backoffSetMinimum (d : Nat) (b : BackoffModel) : BackoffModel :=
  { b with floor := d }

/-- `RetryRequestState`: the phase of the event-source state machine.
Pending futures, streams and timers are owned by the environment in
this model, so the phases carry no payload. -/
inductive ESPhase where
  | newPhase
  | connectPhase
  | connectedPhase
  | retryingPhase
  | waitingForRetry (nanos : Nat)
  | closedPhase
deriving DecidableEq, Repr

/-- Observable actions of the event source: issuing an HTTP request
(recording the `last-event-id` header it carries) and yielding an event
to the consumer (recording the id it carried). -/
inductive ESAction where
  | request (lastEventIdHeader : Option String)
  | yielded (id : Option String)
deriving DecidableEq, Repr

/-- State of `EventSource<T>`: the phase, the never-incremented
`past_retries` counter, the recorded `last_event_id`, the wrapped
backoff, whether the request template is cloneable, and the
chronological trace of observable actions. -/
structure ESState where
  phase : ESPhase
  pastRetries : Nat
  lastEventId : Option String
  backoff : BackoffModel
  requestCloneable : Bool
  trace : List ESAction
deriving DecidableEq, Repr

/-- `EventSource::try_with_backoff`: fresh state in phase `New` with the
seeded `last_event_id`. -/
def initES (lastEventId : Option String) (backoff : BackoffModel) : ESState :=
  { phase := .newPhase
    pastRetries := 0
    lastEventId := lastEventId
    backoff := backoff
    requestCloneable := true
    trace := [] }

instance {ε α : Type} [DecidableEq ε] [DecidableEq α] : DecidableEq (Except ε α) :=
  fun a b =>
    match a, b with
    | .ok x, .ok y =>
        if h : x = y then .isTrue (congrArg Except.ok h)
        else .isFalse (fun hc => h (Except.ok.inj hc))
    | .error x, .error y =>
        if h : x = y then .isTrue (congrArg Except.error h)
        else .isFalse (fun hc => h (Except.error.inj hc))
    | .ok _, .error _ => .isFalse (fun hc => Except.noConfusion hc)
    | .error _, .ok _ => .isFalse (fun hc => Except.noConfusion hc)

/-- External stimuli consumed at the suspension points of
`EventSource::poll_next`: completion of the connect future (with the
result of `error_for_status`), one item of the framed byte stream, or
expiry of the retry timer. -/
inductive ESInput where
  | connectResult (r : Except ReqwestError Unit)
  | streamItem (item : Option (Except EventSourceError TFrame))
  | sleepDone
deriving DecidableEq, Repr

/-- Result of one `EventSource::poll_next` call. -/
inductive ESPollOut where
  | item (r : Except EventSourceError TEvent)
  | streamEnd
  | pending
deriving DecidableEq, Repr

/-- Fueled embedding of the loop in `EventSource::poll_next`
(`ldactl/src/eventsource/eventsource.rs`).  Each iteration matches one
arm of the Rust `match state`; arms that `continue` recurse, arms that
`break` return.  Suspension points consume the next `ESInput`; if no
input is available the poll is `pending`. -/
def esPollF : Nat → ESState → List ESInput → ESPollOut × ESState × List ESInput
  | 0, st, inputs => (.pending, st, inputs)
  | fuel + 1, st, inputs =>
      match st.phase with
      | .newPhase =>
          if st.requestCloneable then
            esPollF fuel
              { st with
                phase := .connectPhase
                trace := st.trace ++ [.request st.lastEventId] } inputs
          else
            (.item (.error .requestCloneError), { st with phase := .closedPhase },
              inputs)
      | .connectPhase =>
          match inputs with
          | [] => (.pending, st, inputs)
          | .connectResult (.ok _) :: rest =>
              esPollF fuel
                { st with phase := .connectedPhase, backoff := backoffReset st.backoff }
                rest
          | .connectResult (.error e) :: rest =>
              if reqwestIsRetryable e then
                esPollF fuel { st with phase := .retryingPhase } rest
              else
                (.item (.error (.requestError e)), { st with phase := .closedPhase },
                  rest)
          | _ :: _ => (.pending, st, inputs)
      | .connectedPhase =>
          match inputs with
          | [] => (.pending, st, inputs)
          | .streamItem (some (.ok (.event ev))) :: rest =>
              let st :=
                if st.lastEventId ≠ ev.id then { st with lastEventId := ev.id }
                else st
              (.item (.ok ev), { st with trace := st.trace ++ [.yielded ev.id] }, rest)
          | .streamItem (some (.ok (.comment _))) :: rest => esPollF fuel st rest
          | .streamItem (some (.ok (.retry d))) :: rest =>
              esPollF fuel { st with backoff := backoffSetMinimum d st.backoff } rest
          | .streamItem (some (.error e)) :: rest =>
              if esIsRetryable e then
                esPollF fuel { st with phase := .retryingPhase } rest
              else
                (.item (.error e), { st with phase := .closedPhase }, rest)
          | .streamItem none :: rest => (.streamEnd, st, rest)
          | _ :: _ => (.pending, st, inputs)
      | .retryingPhase =>
          match backoffNext st.backoff with
          | (some d, b2) =>
              esPollF fuel { st with phase := .waitingForRetry d, backoff := b2 } inputs
          | (none, b2) =>
              (.item (.error (.maxRetriesExceeded st.pastRetries)),
                { st with backoff := b2 }, inputs)
      | .waitingForRetry _ =>
          match inputs with
          | [] => (.pending, st, inputs)
          | .sleepDone :: rest => esPollF fuel { st with phase := .newPhase } rest
          | _ :: _ => (.pending, st, inputs)
      | .closedPhase => (.streamEnd, st, inputs)

/-- One `EventSource::poll_next` call with sufficient fuel: every loop
iteration either consumes an input or advances through a bounded chain
of phases, so `4 * |inputs| + 8` iterations always suffice. -/
def esPoll (st : ESState) (inputs : List ESInput) :
    ESPollOut × ESState × List ESInput :=
  esPollF (4 * inputs.length + 8) st inputs

/-! ## Message adapter (`ldactl/src/message_event_source.rs`) -/

/-- `MessageParseError`: unknown event name, or a payload
deserialization failure tagged with the event kind. -/
inductive MessageParseError where
  | unknownEventType (event : TEvent)
  | jsonError (kind : String)
deriving DecidableEq, Repr

/-- The JSON deserializers used by `TryFrom<Event> for Message`.
`serde_json` is an external collaborator, so the three `from_str` calls
are modelled as parameters: each maps a payload string to the parsed
fields, or to `none` on failure. -/
structure JsonOracle where
  putParse : String → Option (String × EnvMap)
  patchParse : String → Option (String × EnvironmentConfig)
  deleteParse : String → Option (String × Nat)

/-- `TryFrom<Event> for Message`: dispatch on the event name, then
deserialize the payload for `put`/`patch`/`delete`; `reconnect` carries
no payload; any other name is an unknown event type. -/
def tryFromEvent (j : JsonOracle) (event : TEvent) :
    Except MessageParseError Message :=
  if event.name = "put" then
    match j.putParse event.data with
    | some (path, envs) => .ok (.put path envs)
    | none => .error (.jsonError "put")
  else if event.name = "patch" then
    match j.patchParse event.data with
    | some (envId, env) => .ok (.patch envId env)
    | none => .error (.jsonError "patch")
  else if event.name = "delete" then
    match j.deleteParse event.data with
    | some (envId, version) => .ok (.delete envId version)
    | none => .error (.jsonError "delete")
  else if event.name = "reconnect" then .ok .reconnect
  else .error (.unknownEventType event)

/-! ## Merge engine (`src/autoconfigclient.rs`) -/

/-- `AutoConfigClientError`: an unrecoverable event-source error or a
message parse error. -/
inductive AutoConfigClientError where
  | eventSourceError (e : EventSourceError)
  | eventParseError (e : MessageParseError)
deriving DecidableEq, Repr

/-- State of `AutoConfigClient`: the environment map, the pending
change queue, the initialization flag, the owned event source, and the
default backoff used when a fresh event source is created on a
server-requested reconnect (`ExponentialBackoff::default()`). -/
structure ACState where
  environments : EnvMap
  changes : List ConfigChangeEvent
  isInitialized : Bool
  es : ESState
  defaultBackoff : BackoffModel
deriving DecidableEq, Repr

/-- `AutoConfigClient::update_environment`: insert when absent, replace
and report an update when the incoming version is strictly newer,
otherwise ignore. -/
def updateEnvironment (source : EnvMap) (envId : String)
    (value : EnvironmentConfig) : EnvMap × Option ConfigChangeEvent :=
  match lookupEnv source envId with
  | some existing =>
      if existing.version < value.version then
        (insertEnv source envId value, some (.update existing value))
      else (source, none)
  | none => (insertEnv source envId value, some (.insert value))

/-- The merge loop of `process_message` for a non-empty map: apply
`update_environment` for each payload entry, collecting the changes. -/
def mergeEnvironments (source : EnvMap) : EnvMap →
    EnvMap × List ConfigChangeEvent
  | [] => (source, [])
  | (key, value) :: rest =>
      match updateEnvironment source key value with
      | (m2, some c) =>
          let (mf, cs) := mergeEnvironments m2 rest
          (mf, c :: cs)
      | (m2, none) => mergeEnvironments m2 rest

/-- `AutoConfigClient::create_event_source`: a fresh event source built
from the cloned request builder, seeded with `None` as the last event
id and the default backoff. -/
def createEventSource (defaultBackoff : BackoffModel) : ESState :=
  initES none defaultBackoff

/-- `AutoConfigClient::process_message`: returns the successor state
and the collected change events.  A `Put` with path `"/"` installs the
payload when the map is empty (pushing `Initialized` only when
`is_initialized` is false, and — mirroring the source — updating the
flag only under `if is_initialized`), merges otherwise; other paths
warn and do nothing; `Patch` and `Delete` apply the version-guarded
merge; `Reconnect` replaces the owned event source. -/
def processMessage (st : ACState) : Message → ACState × List ConfigChangeEvent
  | .put path environments =>
      if path = "/" then
        if st.environments.isEmpty then
          let isInit := st.isInitialized
          let changes := if isInit then [] else [ConfigChangeEvent.initialized]
          let st2 := { st with environments := environments }
          let changes := changes ++ st2.environments.map (fun p => .insert p.2)
          let st3 := if isInit then { st2 with isInitialized := true } else st2
          (st3, changes)
        else
          let (envs, changes) := mergeEnvironments st.environments environments
          ({ st with environments := envs }, changes)
      else (st, [])
  | .patch envId environment =>
      match updateEnvironment st.environments envId environment with
      | (envs, some c) => ({ st with environments := envs }, [c])
      | (envs, none) => ({ st with environments := envs }, [])
  | .delete envId version =>
      match lookupEnv st.environments envId with
      | some existing =>
          if existing.version < version then
            ({ st with environments := removeEnv st.environments envId },
              [.deleteEv existing])
          else (st, [])
      | none => (st, [])
  | .reconnect => ({ st with es := createEventSource st.defaultBackoff }, [])

/-- Result of one `AutoConfigClient::poll_next` call. -/
inductive ACPollOut where
  | item (r : Except AutoConfigClientError ConfigChangeEvent)
  | streamEnd
  | pending
deriving DecidableEq, Repr

/-- Fueled embedding of the loop in `AutoConfigClient::poll_next`:
drain the pending change queue first; only when it is empty poll the
owned event source, convert the event to a `Message`, process it,
append the resulting changes and loop.  Parse failures and transport
errors are returned immediately. -/
def acPollF (j : JsonOracle) : Nat → ACState → List ESInput →
    ACPollOut × ACState × List ESInput
  | 0, st, inputs => (.pending, st, inputs)
  | fuel + 1, st, inputs =>
      match st.changes with
      | c :: rest => (.item (.ok c), { st with changes := rest }, inputs)
      | [] =>
          match esPoll st.es inputs with
          | (.item (.ok ev), es2, inputs2) =>
              match tryFromEvent j ev with
              | .ok msg =>
                  let (st2, newChanges) := processMessage { st with es := es2 } msg
                  acPollF j fuel { st2 with changes := st2.changes ++ newChanges }
                    inputs2
              | .error e =>
                  (.item (.error (.eventParseError e)), { st with es := es2 },
                    inputs2)
          | (.item (.error e), es2, inputs2) =>
              (.item (.error (.eventSourceError e)), { st with es := es2 }, inputs2)
          | (.streamEnd, es2, inputs2) => (.streamEnd, { st with es := es2 }, inputs2)
          | (.pending, es2, inputs2) => (.pending, { st with es := es2 }, inputs2)

/-- One `AutoConfigClient::poll_next` call with sufficient fuel. -/
def acPoll (j : JsonOracle) (st : ACState) (inputs : List ESInput) :
    ACPollOut × ACState × List ESInput :=
  acPollF j (inputs.length + 2) st inputs

/-! ## Fixtures for witnesses and counterexamples -/

/-- A concrete environment record with the given id and version. -/
def envFixture (id : String) (ver : Nat) : EnvironmentConfig :=
  { envId := id
    envKey := "k"
    envName := "n"
    mobKey := "m"
    projKey := "p"
    projName := "pn"
    sdkKey := "s"
    expiringSdkKey := none
    defaultTtl := 0
    secureMode := false
    version := ver }

/-- An inner backoff policy already exhausted. -/
def backoffFixture : BackoffModel := { script := [], pos := 0, floor := 0 }

/-- A fresh event source with no seeded id. -/
def esFixture : ESState := initES none backoffFixture

/-- A fresh autoconfig client state. -/
def acFixture : ACState :=
  { environments := []
    changes := []
    isInitialized := false
    es := esFixture
    defaultBackoff := backoffFixture }

/-- A JSON oracle whose deserializers always fail. -/
def oracleFixture : JsonOracle :=
  { putParse := fun _ => none
    patchParse := fun _ => none
    deleteParse := fun _ => none }

/-- The frames produced by a complete decode, `none` on a decode error. -/
def decodedFrames (st : DecoderState) (src : List Nat) : Option (List SseFrame) :=
  match decodeAll st src with
  | .ok (fs, _) => some fs
  | .error _ => none

/-! ## C5 — Patch merge semantics -/

/-- C5: for a `Patch` with environment id and incoming version `v`, the
merge engine inserts and emits `Insert` when no record exists; replaces
and emits `Update{prev, curr}` when `v` exceeds the stored version; and
leaves the map unchanged, emitting nothing, when `v ≤ ev`. -/
theorem c5_patch_merge_semantics (st : ACState) (envId : String)
    (env : EnvironmentConfig) :
    (lookupEnv st.environments envId = none →
      processMessage st (.patch envId env) =
        ({ st with environments := insertEnv st.environments envId env },
          [ConfigChangeEvent.insert env])) ∧
    (∀ existing, lookupEnv st.environments envId = some existing →
      (existing.version < env.version →
        processMessage st (.patch envId env) =
          ({ st with environments := insertEnv st.environments envId env },
            [ConfigChangeEvent.update existing env])) ∧
      (env.version ≤ existing.version →
        processMessage st (.patch envId env) = (st, []))) := by
  refine ⟨fun hnone => ?_, fun existing hsome => ⟨fun hlt => ?_, fun hle => ?_⟩⟩
  · simp [processMessage, updateEnvironment, hnone]
  · simp [processMessage, updateEnvironment, hsome, hlt]
  · simp [processMessage, updateEnvironment, hsome, Nat.not_lt.mpr hle]

/-- Witness for C5 at concrete inputs: inserting into an empty map and
ignoring a stale patch. -/
theorem c5_patch_merge_semantics_witness :
    processMessage acFixture (.patch "a" (envFixture "a" 3)) =
      ({ acFixture with environments := [("a", envFixture "a" 3)] },
        [ConfigChangeEvent.insert (envFixture "a" 3)]) ∧
    processMessage
        { acFixture with environments := [("a", envFixture "a" 3)] }
        (.patch "a" (envFixture "a" 3)) =
      ({ acFixture with environments := [("a", envFixture "a" 3)] }, []) := by
  constructor
  · exact (c5_patch_merge_semantics acFixture "a" (envFixture "a" 3)).1 (by decide)
  · exact ((c5_patch_merge_semantics
      { acFixture with environments := [("a", envFixture "a" 3)] } "a"
      (envFixture "a" 3)).2 (envFixture "a" 3) (by decide)).2 (by decide)

/-! ## C6 — At-most-one Initialized -/

/-- C6: evaluating the merge engine at the failing input.  Processing
`Put("/")` with an empty payload twice emits `Initialized` both times:
the source updates `is_initialized` only under `if is_initialized`, so
the flag never becomes true and a second `Put("/")` that finds the map
empty pushes `Initialized` again, contradicting the at-most-once claim. -/
theorem c6_initialized_reemitted :
    (processMessage acFixture (.put "/" [])).2 = [ConfigChangeEvent.initialized] ∧
    (processMessage acFixture (.put "/" [])).1.isInitialized = false ∧
    (processMessage (processMessage acFixture (.put "/" [])).1 (.put "/" [])).2 =
      [ConfigChangeEvent.initialized] := by
  decide

/-! ## C7 — Transport error classification -/

/-- Transport retryability as the specification words it: server-side
(5xx), 408 Request Timeout or 429 Too Many Requests when a status is
present; connect, timeout, decode or non-request body errors otherwise. -/
def specTransportRetryable (e : ReqwestError) : Bool :=
  match e.status with
  | some s => isServerError s || s = 408 || s = 429
  | none => e.isConnect || e.isTimeout || e.isDecode || (!e.isRequest && e.isBody)

/-- C7 counterexample: the code also classifies `400 Bad Request` as
retryable (`StatusCode::BAD_REQUEST` appears in the retryable arm), so
the claimed "if and only if" fails at status 400. -/
theorem c7_counterexample :
    reqwestIsRetryable
        { status := some 400, isConnect := false, isTimeout := false,
          isDecode := false, isRequest := false, isBody := false } = true ∧
    specTransportRetryable
        { status := some 400, isConnect := false, isTimeout := false,
          isDecode := false, isRequest := false, isBody := false } = false := by
  decide

/-- C7 (amended): a transport error is retryable if and only if its
status is 5xx, 400, 408 or 429, or, with no status, the error is a
connect, timeout, decode or non-request body error. -/
theorem c7_transport_classification (e : ReqwestError) :
    reqwestIsRetryable e = true ↔
      ((∃ s, e.status = some s ∧
          (500 ≤ s ∧ s ≤ 599 ∨ s = 400 ∨ s = 408 ∨ s = 429)) ∨
        (e.status = none ∧
          (e.isConnect = true ∨ e.isTimeout = true ∨ e.isDecode = true ∨
            (e.isRequest = false ∧ e.isBody = true)))) := by
  rcases e with ⟨status, c, t, d, r, b⟩
  cases status with
  | none =>
      simp [reqwestIsRetryable]
      cases c <;> cases t <;> cases d <;> cases r <;> cases b <;> simp
  | some s =>
      simp only [reqwestIsRetryable, isServerError]
      split_ifs with h1 h2
      · simp only [Bool.and_eq_true, decide_eq_true_eq] at h1
        simp only [true_iff]
        exact Or.inl ⟨s, rfl, Or.inl h1⟩
      · simp only [Bool.or_eq_true, decide_eq_true_eq] at h2
        simp only [true_iff]
        exact Or.inl ⟨s, rfl, by tauto⟩
      · simp only [Bool.and_eq_true, decide_eq_true_eq, not_and] at h1
        simp only [Bool.or_eq_true, decide_eq_true_eq, not_or] at h2
        simp only [false_iff]
        rintro (⟨s2, hs2, hcond⟩ | ⟨hnone, _⟩)
        · injection hs2 with hs2
          subst hs2
          rcases hcond with h5 | h4 | h4 | h4
          · exact h1 h5.1 h5.2
          all_goals tauto
        · cases hnone

/-! ## C8 — Retry exhaustion -/

/-- Backoff for the C8 scenario: the inner policy yields 50ms once and
is then exhausted. -/
def c8backoff : BackoffModel := { script := [some 50000000], pos := 0, floor := 0 }

/-- A retryable transport error (HTTP 500). -/
def c8err : ReqwestError :=
  { status := some 500, isConnect := false, isTimeout := false,
    isDecode := false, isRequest := false, isBody := false }

/-- The C8 stimulus: two consecutive connection failures separated by
the retry timer firing. -/
def c8inputs : List ESInput :=
  [.connectResult (.error c8err), .sleepDone, .connectResult (.error c8err)]

/-- Event-source state after the C8 scenario. -/
def c8final : ESState := (esPoll (initES none c8backoff) c8inputs).2.1

/-- C8: evaluating the event source at the failing input.  After two
retryable errors with backoff yielding 50ms then exhaustion, the code
emits `MaxRetriesExceeded(0)` — `past_retries` is never incremented and
no source error is carried — and the state machine remains in
`Retrying` rather than `Closed`, so the next poll emits the error
again. -/
theorem c8_retry_exhaustion_behavior :
    (esPoll (initES none c8backoff) c8inputs).1 =
      .item (.error (.maxRetriesExceeded 0)) ∧
    c8final.phase = .retryingPhase ∧
    c8final.pastRetries = 0 ∧
    (esPoll c8final []).1 = .item (.error (.maxRetriesExceeded 0)) := by
  decide

/-! ## C10 — Parse-failure atomicity -/

/-- C10: when the queue of pending changes is empty and the underlying
event source yields an event that fails to convert into a `Message`,
`poll_next` returns `Err` with the parse error and the environment map,
the `is_initialized` flag and the pending-change queue are exactly as
before the failing event. -/
theorem c10_parse_failure_atomicity (j : JsonOracle) (st : ACState) (ev : TEvent)
    (es2 : ESState) (inputs rest : List ESInput) (e : MessageParseError)
    (hch : st.changes = [])
    (hpoll : esPoll st.es inputs = (.item (.ok ev), es2, rest))
    (herr : tryFromEvent j ev = .error e) :
    acPoll j st inputs =
      (.item (.error (.eventParseError e)), { st with es := es2 }, rest) ∧
    ({ st with es := es2 }).environments = st.environments ∧
    ({ st with es := es2 }).isInitialized = st.isInitialized ∧
    ({ st with es := es2 }).changes = st.changes := by
  refine ⟨?_, rfl, rfl, rfl⟩
  show acPollF j (inputs.length + 1 + 1) st inputs = _
  simp [acPollF, hch, hpoll, herr]

/-- The C10 stimulus: a successful connect followed by one streamed
event whose name is `put` but whose payload does not deserialize. -/
def c10inputs : List ESInput :=
  [.connectResult (.ok ()),
   .streamItem (some (.ok (.event { id := none, name := "put", data := "x" })))]

/-- Event-source state after yielding the C10 event. -/
def c10es2 : ESState := (esPoll esFixture c10inputs).2.1

/-- Witness for C10 at a concrete failing event. -/
theorem c10_parse_failure_atomicity_witness :
    acPoll oracleFixture acFixture c10inputs =
      (.item (.error (.eventParseError (.jsonError "put"))),
        { acFixture with es := c10es2 }, []) ∧
    ({ acFixture with es := c10es2 }).environments = acFixture.environments ∧
    ({ acFixture with es := c10es2 }).isInitialized = acFixture.isInitialized ∧
    ({ acFixture with es := c10es2 }).changes = acFixture.changes :=
  c10_parse_failure_atomicity oracleFixture acFixture
    { id := none, name := "put", data := "x" } c10es2 c10inputs [] (.jsonError "put")
    rfl (by decide) (by decide)

/-! ## C2 — Dispatch rule and id persistence -/

/-- A decoder state whose data buffer holds the single newline produced
by a `data:` field with empty value. -/
def c2state : DecoderState :=
  { scan := .nextFrame
    dataBuf := [lfByte]
    eventType := none
    eventId := []
    maxBufLen := 1024
    isClosed := false }

/-- C2 counterexample: on an empty line the code removes the trailing
newline from the data buffer *before* testing emptiness, so with
`data_buf = "\n"` (input `"data:\n\n"`) the buffer is non-empty when the
empty line is consumed and the claim requires a `Frame::Event`, yet no
frame is emitted. -/
theorem c2_counterexample :
    c2state.dataBuf ≠ [] ∧
    (handleFrame c2state .emptyLine).1 = .continueLoop ∧
    decodedFrames (initDecoder 1024) (strBytes "data:\n\n") = some [] := by
  decide

/-- C2 (amended): on an empty line the decoder first strips one
trailing newline from the data buffer; if the stripped buffer is empty
it resets the event type and emits nothing, otherwise it emits
`Frame::Event` with id taken from `event_id` when non-empty, resetting
`event_type` but not `event_id`; and in any non-failing field handling
`event_id` changes only through an `id:` field whose value contains no
NUL byte. -/
theorem c2_dispatch_rule (st : DecoderState) :
    (rbump st.dataBuf = [] →
      handleFrame st .emptyLine =
        (.continueLoop, { st with dataBuf := rbump st.dataBuf, eventType := none })) ∧
    (rbump st.dataBuf ≠ [] →
      handleFrame st .emptyLine =
        (.emit (.event (if st.eventId.isEmpty then none else some st.eventId)
            (eventTypeBytes st.eventType) (rbump st.dataBuf)),
          { st with dataBuf := [], eventType := none })) ∧
    (∀ ff d st2, handleFrame st ff = (d, st2) → (∀ e, d ≠ .errorOut e) →
      st2.eventId = st.eventId ∨
      ∃ value, ff = .fieldOf .idKind value ∧
        0 ∉ rbumpIf crByte (rbump value) ∧
        st2.eventId = rbumpIf crByte (rbump value)) := by
  refine ⟨fun h => ?_, fun h => ?_, fun ff d st2 hh hne => ?_⟩
  · simp [handleFrame, h]
  · simp only [handleFrame]
    rw [if_neg (by simpa [List.isEmpty_iff] using h)]
  · cases ff with
    | emptyLine =>
        left
        simp only [handleFrame] at hh
        split_ifs at hh <;> (injection hh with hd hst; subst hst; rfl)
    | fieldOf kind value =>
        cases kind with
        | dataKind =>
            simp only [handleFrame] at hh
            split_ifs at hh with h1 h2
            · injection hh with hd hst
              subst hd
              exact absurd rfl (hne _)
            · injection hh with hd hst
              subst hst
              left
              rfl
            · injection hh with hd hst
              subst hst
              left
              rfl
        | eventKind =>
            simp only [handleFrame] at hh
            split_ifs at hh with h1
            · injection hh with hd hst
              subst hst
              left
              rfl
            · cases hget : getEventType (rbumpIf crByte (rbump value)) with
              | ok t =>
                  rw [hget] at hh
                  injection hh with hd hst
                  subst hst
                  left
                  rfl
              | error e =>
                  rw [hget] at hh
                  injection hh with hd hst
                  subst hd
                  exact absurd rfl (hne _)
        | retryKind =>
            simp only [handleFrame] at hh
            cases hp : parseU64 (rbumpIf crByte (rbump value)) with
            | some n =>
                rw [hp] at hh
                injection hh with hd hst
                subst hst
                left
                rfl
            | none =>
                rw [hp] at hh
                injection hh with hd hst
                subst hst
                left
                rfl
        | commentKind =>
            simp only [handleFrame] at hh
            injection hh with hd hst
            subst hst
            left
            rfl
        | idKind =>
            simp only [handleFrame] at hh
            split_ifs at hh with h1 h2 h3
            · injection hh with hd hst
              subst hst
              left
              rfl
            · injection hh with hd hst
              subst hst
              left
              rfl
            · injection hh with hd hst
              subst hst
              right
              exact ⟨value, rfl, h1, rfl⟩
            · injection hh with hd hst
              subst hd
              exact absurd rfl (hne _)
        | unknownField nm =>
            simp only [handleFrame] at hh
            injection hh with hd hst
            subst hst
            left
            rfl

/-- A state about to dispatch the event of `"event: foo\ndata: bar\n"`. -/
def c2wstate : DecoderState :=
  { scan := .nextFrame
    dataBuf := strBytes "bar" ++ [lfByte]
    eventType := some (strBytes "foo")
    eventId := strBytes "1"
    maxBufLen := 1024
    isClosed := false }

/-- Witness for C2 at a concrete dispatch. -/
theorem c2_dispatch_rule_witness :
    handleFrame c2wstate .emptyLine =
      (.emit (.event (if c2wstate.eventId.isEmpty then none else some c2wstate.eventId)
          (eventTypeBytes c2wstate.eventType) (rbump c2wstate.dataBuf)),
        { c2wstate with dataBuf := [], eventType := none }) :=
  (c2_dispatch_rule c2wstate).2.1 (by decide)

/-! ## C3 — Buffer cap -/

/-- Decoder state after feeding `"event: abcdefghi\n"` to a decoder
with `max_buf_len = 8`. -/
def c3state : DecoderState :=
  { scan := .nextFrame
    dataBuf := []
    eventType := some (strBytes "abcdefghi")
    eventId := []
    maxBufLen := 8
    isClosed := false }

/-- C3 counterexample: an `event:` field value is stored without any
size check, so after `"event: abcdefghi\n"` a decoder with
`max_buf_len = 8` holds nine bytes across its buffers without closing
and without reporting `ExceededSizeLimit` — the claimed invariant
`data_buf + event_type + event_id ≤ max_buf_len ∨ closed` fails. -/
theorem c3_counterexample :
    decodeAll (initDecoder 8) (strBytes "event: abcdefghi\n") = .ok ([], c3state) ∧
    bufLen c3state = 9 ∧
    c3state.maxBufLen = 8 ∧
    c3state.isClosed = false := by
  decide

/-- C3 (amended): a `data:` append that would exceed the bound closes
the decoder and reports `ExceededSizeLimit` whose `consumed_len` is
always zero, because `close()` clears every buffer before `buf_len()`
is read for the error; after any successful `data:` append the buffer
sum is within `max_buf_len`; and a closed decoder discards all input,
emitting nothing. -/
theorem c3_buffer_cap (st : DecoderState) (value src : List Nat) :
    (value.length > bufRemaining st →
      handleFrame st (.fieldOf .dataKind value) =
        (.errorOut (.exceededSizeLimit st.maxBufLen value.length 0),
          closeDecoder st) ∧
      (closeDecoder st).isClosed = true) ∧
    (1 ≤ value.length → value.length ≤ bufRemaining st →
      bufLen (handleFrame st (.fieldOf .dataKind value)).2 ≤ st.maxBufLen) ∧
    (st.isClosed = true → sseDecode st src = (.needMore, st, [])) := by
  refine ⟨fun h => ⟨?_, rfl⟩, fun h1 hle => ?_, fun hc => ?_⟩
  · simp [handleFrame, h, bufLen, closeDecoder]
  · have hrem : bufLen st + value.length ≤ st.maxBufLen := by
      unfold bufRemaining at hle
      omega
    rcases st with ⟨scan, db, et, eid, maxLen, closed⟩
    simp only [handleFrame, gt_iff_lt, not_lt.mpr hle, if_false]
    simp only [bufRemaining] at hle
    split_ifs with hcr
    · cases et <;>
        · simp only [bufLen, List.length_append, List.length_take,
            List.length_cons, List.length_nil] at hrem ⊢
          omega
    · cases et <;>
        · simp only [bufLen, List.length_append] at hrem ⊢
          omega
  · show sseDecodeF (src.length + 1) st src = _
    simp [sseDecodeF, hc]

/-- Witness for C3: a concrete oversized `data:` append into a decoder
that already holds four buffered bytes — the reported `consumed_len` is
still zero, since `close()` empties the buffers before the error reads
them — plus a concrete in-bound append and a closed decoder discarding
input. -/
theorem c3_buffer_cap_witness :
    (handleFrame { initDecoder 8 with dataBuf := strBytes "abc\n" }
        (.fieldOf .dataKind (strBytes "123456\n")) =
      (.errorOut (.exceededSizeLimit 8 7 0),
        closeDecoder { initDecoder 8 with dataBuf := strBytes "abc\n" }) ∧
      (closeDecoder { initDecoder 8 with dataBuf := strBytes "abc\n" }).isClosed =
        true) ∧
    bufLen (handleFrame (initDecoder 8) (.fieldOf .dataKind (strBytes "1234\n"))).2 ≤ 8 ∧
    sseDecode (closeDecoder (initDecoder 8)) (strBytes "data: x\n") =
      (.needMore, closeDecoder (initDecoder 8), []) := by
  refine ⟨?_, ?_, ?_⟩
  · exact (c3_buffer_cap { initDecoder 8 with dataBuf := strBytes "abc\n" }
      (strBytes "123456\n") []).1 (by decide)
  · exact (c3_buffer_cap (initDecoder 8) (strBytes "1234\n") []).2.1 (by decide) (by decide)
  · exact (c3_buffer_cap (closeDecoder (initDecoder 8)) [] (strBytes "data: x\n")).2.2 rfl

/-! ## C4 — Retry field parsing -/

/-- Acceptance of a retry value as the amended claim words it: an
optional leading `+` sign, then one or more ASCII digits, with base-ten
value below `2 ^ 64`; a leading `-` is never accepted since `u64` is
unsigned. -/
def retryAccepted (v : List Nat) : Prop :=
  ∃ sign digits, (sign = [] ∨ sign = [43]) ∧ v = sign ++ digits ∧
    digits ≠ [] ∧ digits.all isAsciiDigit = true ∧ digitsValue digits < u64Limit

theorem parseU64_isSome_iff (v : List Nat) :
    (∃ n, parseU64 v = some n) ↔ retryAccepted v := by
  constructor
  · rintro ⟨n, hn⟩
    cases v with
    | nil =>
        unfold parseU64 at hn
        simp at hn
    | cons b t =>
        unfold parseU64 at hn
        by_cases hb43 : b = 43
        · subst hb43
          rw [if_pos (show (43 :: t : List Nat).head? = some 43 from rfl)] at hn
          simp only [List.tail_cons] at hn
          by_cases h1 : t ≠ [] ∧ t.all isAsciiDigit = true ∧ digitsValue t < u64Limit
          · exact ⟨[43], t, Or.inr rfl, rfl, h1.1, h1.2.1, h1.2.2⟩
          · rw [if_neg h1] at hn
            cases hn
        · rw [if_neg (by simp [hb43])] at hn
          by_cases h3 : (b :: t) ≠ [] ∧ (b :: t).all isAsciiDigit = true ∧
            digitsValue (b :: t) < u64Limit
          · exact ⟨[], b :: t, Or.inl rfl, rfl, h3.1, h3.2.1, h3.2.2⟩
          · rw [if_neg h3] at hn
            cases hn
  · rintro ⟨sign, digits, hsign, rfl, hne, hdig, hval⟩
    rcases hsign with rfl | rfl
    · cases digits with
      | nil => exact absurd rfl hne
      | cons d t =>
          have hd : isAsciiDigit d = true :=
            List.all_eq_true.mp hdig d (List.mem_cons_self d t)
          have h43d : d ≠ 43 := by
            simp only [isAsciiDigit, Bool.and_eq_true, decide_eq_true_eq] at hd
            omega
          refine ⟨digitsValue (d :: t), ?_⟩
          simp only [List.nil_append] at hne hdig ⊢
          unfold parseU64
          rw [if_neg (by simp [h43d]), if_pos ⟨hne, hdig, hval⟩]
    · refine ⟨digitsValue digits, ?_⟩
      simp only [List.singleton_append]
      unfold parseU64
      rw [if_pos (show (43 :: digits : List Nat).head? = some 43 from rfl)]
      simp only [List.tail_cons]
      rw [if_pos ⟨hne, hdig, hval⟩]

/-- C4 counterexample: the value `+0` is not ASCII-digits-only yet
emits `Frame::Retry(0)`, while `18446744073709551616` is
ASCII-digits-only yet emits nothing because it overflows `u64`.  Both
directions of the claimed "if and only if" fail.  (`-0` also emits
nothing: `u64::from_str` strips a sign only for signed types.) -/
theorem c4_counterexample :
    decodedFrames (initDecoder 1024) (strBytes "retry: +0\n") =
      some [SseFrame.retry 0] ∧
    (strBytes "+0").all isAsciiDigit = false ∧
    decodedFrames (initDecoder 1024) (strBytes "retry: 18446744073709551616\n") =
      some [] ∧
    (strBytes "18446744073709551616").all isAsciiDigit = true ∧
    decodedFrames (initDecoder 1024) (strBytes "retry: -0\n") = some [] := by
  decide

/-- C4 (amended): a retry field emits `Frame::Retry` exactly when its
value (after stripping the line terminator) parses as a Rust `u64`: an
optional leading `+` sign followed by one or more ASCII digits, with
base-ten value below `2 ^ 64`; a leading `-` is rejected since `u64` is
unsigned.  The emitted duration is that value in milliseconds, and any
other value produces no frame and leaves the state unchanged. -/
theorem c4_retry_field (st : DecoderState) (value : List Nat) :
    ((∃ n, (handleFrame st (.fieldOf .retryKind value)).1 =
        .emit (.retry (durationFromMillis n))) ↔
      retryAccepted (rbumpIf crByte (rbump value))) ∧
    (∀ n, (handleFrame st (.fieldOf .retryKind value)).1 =
        .emit (.retry (durationFromMillis n)) →
      parseU64 (rbumpIf crByte (rbump value)) = some n) ∧
    (parseU64 (rbumpIf crByte (rbump value)) = none →
      handleFrame st (.fieldOf .retryKind value) = (.needMoreInput, st)) := by
  refine ⟨⟨fun h => ?_, fun h => ?_⟩, fun n hn => ?_, fun hp => ?_⟩
  · obtain ⟨n, hn⟩ := h
    rw [← parseU64_isSome_iff]
    simp only [handleFrame] at hn
    cases hp : parseU64 (rbumpIf crByte (rbump value)) with
    | some m => exact ⟨m, rfl⟩
    | none =>
        rw [hp] at hn
        cases hn
  · rw [← parseU64_isSome_iff] at h
    obtain ⟨n, hn⟩ := h
    refine ⟨n, ?_⟩
    simp [handleFrame, hn]
  · simp only [handleFrame] at hn
    cases hp : parseU64 (rbumpIf crByte (rbump value)) with
    | some m =>
        rw [hp] at hn
        simp only [Directive.emit.injEq, SseFrame.retry.injEq] at hn
        have : m = n := by
          have := hn
          unfold durationFromMillis at this
          omega
        rw [this]
    | none =>
        rw [hp] at hn
        cases hn
  · simp [handleFrame, hp]

/-- Witness for C4: the concrete retry line value `100\n` emits a
100-millisecond retry frame. -/
theorem c4_retry_field_witness :
    (handleFrame (initDecoder 1024) (.fieldOf .retryKind (strBytes "100\n"))).1 =
      .emit (.retry (durationFromMillis 100)) ∧
    parseU64 (rbumpIf crByte (rbump (strBytes "100\n"))) = some 100 := by
  have h := c4_retry_field (initDecoder 1024) (strBytes "100\n")
  obtain ⟨n, hn⟩ := h.1.mpr
    ⟨[], strBytes "100", Or.inl rfl, by decide, by decide, by decide, by decide⟩
  have hp := h.2.1 n hn
  have h100 : parseU64 (rbumpIf crByte (rbump (strBytes "100\n"))) = some 100 := by
    decide
  rw [h100] at hp
  injection hp with hp
  subst hp
  exact ⟨hn, h100⟩

/-! ## C9 — Last-Event-ID carry-forward -/

/-- The event id recorded after a chronological action trace, starting
from the seeded id: each yielded event overwrites it (`poll_next` sets
`last_event_id` to the id of every yielded event). -/
def currentRecordedId (seed : Option String) (tr : List ESAction) : Option String :=
  tr.foldl (fun acc a => match a with | .yielded i => i | .request _ => acc) seed

/-- Every request in the trace carries exactly the id recorded at the
time it was issued. -/
def traceCarriesId (seed : Option String) : List ESAction → Prop
  | [] => True
  | .request h :: tr => h = seed ∧ traceCarriesId seed tr
  | .yielded i :: tr => traceCarriesId i tr

/-- Invariant tying an event-source state to its observable history. -/
def esInv (seed : Option String) (st : ESState) : Prop :=
  traceCarriesId seed st.trace ∧ st.lastEventId = currentRecordedId seed st.trace

theorem currentRecordedId_append_request (seed : Option String)
    (tr : List ESAction) (h : Option String) :
    currentRecordedId seed (tr ++ [.request h]) = currentRecordedId seed tr := by
  simp [currentRecordedId, List.foldl_append]

theorem currentRecordedId_append_yield (seed : Option String)
    (tr : List ESAction) (i : Option String) :
    currentRecordedId seed (tr ++ [.yielded i]) = i := by
  simp [currentRecordedId, List.foldl_append]

theorem traceCarriesId_append_request (seed : Option String) (tr : List ESAction)
    (h : Option String) (htr : traceCarriesId seed tr)
    (hh : h = currentRecordedId seed tr) :
    traceCarriesId seed (tr ++ [.request h]) := by
  induction tr generalizing seed with
  | nil => exact ⟨hh, trivial⟩
  | cons a t ih =>
      cases a with
      | request h2 => exact ⟨htr.1, ih seed htr.2 hh⟩
      | yielded i => exact ih i htr hh

theorem traceCarriesId_append_yield (seed : Option String) (tr : List ESAction)
    (i : Option String) (htr : traceCarriesId seed tr) :
    traceCarriesId seed (tr ++ [.yielded i]) := by
  induction tr generalizing seed with
  | nil => exact trivial
  | cons a t ih =>
      cases a with
      | request h2 => exact ⟨htr.1, ih seed htr.2⟩
      | yielded j => exact ih j htr

/-- C9 (amended): within one `EventSource` instance, every request it
issues carries a `last-event-id` header equal to the id currently
recorded, which is the id of the most recently yielded event (or the
seeded value before any event): the invariant is preserved by every
`poll_next` call.  A server-requested reconnect replaces the instance
with a fresh one seeded with `None` (see the counterexample), so the
carry-forward does not extend across it. -/
theorem c9_last_event_id_carry (fuel : Nat) (seed : Option String) (st : ESState)
    (inputs : List ESInput) (h : esInv seed st) :
    esInv seed (esPollF fuel st inputs).2.1 := by
  induction fuel generalizing st inputs with
  | zero => exact h
  | succ fuel ih =>
      obtain ⟨htr, hid⟩ := h
      cases hph : st.phase with
      | newPhase =>
          simp only [esPollF, hph]
          split_ifs with hcl
          · refine ih _ _ ⟨?_, ?_⟩
            · exact traceCarriesId_append_request seed st.trace st.lastEventId htr hid
            · simp [currentRecordedId_append_request, hid]
          · exact ⟨htr, hid⟩
      | connectPhase =>
          cases inputs with
          | nil =>
              simp only [esPollF, hph]
              exact ⟨htr, hid⟩
          | cons input rest =>
              cases input with
              | connectResult r =>
                  cases r with
                  | ok u =>
                      simp only [esPollF, hph]
                      exact ih _ _ ⟨htr, hid⟩
                  | error e =>
                      simp only [esPollF, hph]
                      split_ifs with hretry
                      · exact ih _ _ ⟨htr, hid⟩
                      · exact ⟨htr, hid⟩
              | streamItem item =>
                  simp only [esPollF, hph]
                  exact ⟨htr, hid⟩
              | sleepDone =>
                  simp only [esPollF, hph]
                  exact ⟨htr, hid⟩
      | connectedPhase =>
          cases inputs with
          | nil =>
              simp only [esPollF, hph]
              exact ⟨htr, hid⟩
          | cons input rest =>
              cases input with
              | connectResult r =>
                  simp only [esPollF, hph]
                  exact ⟨htr, hid⟩
              | sleepDone =>
                  simp only [esPollF, hph]
                  exact ⟨htr, hid⟩
              | streamItem item =>
                  cases item with
                  | none =>
                      simp only [esPollF, hph]
                      exact ⟨htr, hid⟩
                  | some r =>
                      cases r with
                      | error e =>
                          simp only [esPollF, hph]
                          split_ifs with hretry
                          · exact ih _ _ ⟨htr, hid⟩
                          · exact ⟨htr, hid⟩
                      | ok frame =>
                          cases frame with
                          | comment c =>
                              simp only [esPollF, hph]
                              exact ih _ _ ⟨htr, hid⟩
                          | retry d =>
                              simp only [esPollF, hph]
                              exact ih _ _ ⟨htr, hid⟩
                          | event ev =>
                              simp only [esPollF, hph]
                              split_ifs with hne
                              · exact ⟨traceCarriesId_append_yield seed st.trace
                                  ev.id htr,
                                  by simp [currentRecordedId_append_yield]⟩
                              · refine ⟨traceCarriesId_append_yield seed st.trace
                                  ev.id htr, ?_⟩
                                have heq : st.lastEventId = ev.id := not_ne_iff.mp hne
                                simp [currentRecordedId_append_yield, heq]
      | retryingPhase =>
          rcases hb : backoffNext st.backoff with ⟨ob, b2⟩
          cases ob with
          | some d =>
              simp only [esPollF, hph, hb]
              exact ih _ _ ⟨htr, hid⟩
          | none =>
              simp only [esPollF, hph, hb]
              exact ⟨htr, hid⟩
      | waitingForRetry d =>
          cases inputs with
          | nil =>
              simp only [esPollF, hph]
              exact ⟨htr, hid⟩
          | cons input rest =>
              cases input with
              | connectResult r =>
                  simp only [esPollF, hph]
                  exact ⟨htr, hid⟩
              | streamItem item =>
                  simp only [esPollF, hph]
                  exact ⟨htr, hid⟩
              | sleepDone =>
                  simp only [esPollF, hph]
                  exact ih _ _ ⟨htr, hid⟩
      | closedPhase =>
          simp only [esPollF, hph]
          exact ⟨htr, hid⟩

/-- The event delivered before the server-requested reconnect: it
carries id `"1"` and asks the client to reconnect. -/
def c9ev : TEvent := { id := some "1", name := "reconnect", data := "" }

/-- The C9 stimulus: connect, stream the id-carrying reconnect event,
then serve the next connection attempt. -/
def c9inputs : List ESInput :=
  [.connectResult (.ok ()),
   .streamItem (some (.ok (.event c9ev))),
   .connectResult (.ok ())]

/-- C9 counterexample: the owned event source yields an event carrying
id `"1"`, but the `reconnect` message makes `AutoConfigClient` replace
the event source with a fresh one built with `last_event_id = None`
(`create_event_source` passes `None` to `try_with_backoff`), so the
next outgoing request carries no `Last-Event-ID` header at all. -/
theorem c9_counterexample :
    (esPoll acFixture.es c9inputs).1 = .item (.ok c9ev) ∧
    c9ev.id = some "1" ∧
    (acPoll oracleFixture acFixture c9inputs).2.1.es.trace = [.request none] ∧
    (acPoll oracleFixture acFixture c9inputs).2.1.es.lastEventId = none := by
  decide

/-- Witness for C9: the invariant instantiated on a seeded instance
driven through a full connect-and-yield cycle. -/
theorem c9_last_event_id_carry_witness :
    esInv (some "1")
      (esPollF 8 (initES (some "1") backoffFixture)
        [ESInput.connectResult (.ok ()),
         ESInput.streamItem (some (.ok (.event c9ev)))]).2.1 :=
  c9_last_event_id_carry 8 (some "1") (initES (some "1") backoffFixture)
    [ESInput.connectResult (.ok ()),
     ESInput.streamItem (some (.ok (.event c9ev)))] ⟨trivial, rfl⟩

/-! ## C1 — Round-trip: supporting lemmas -/

theorem mem_of_getLast?_some {l : List Nat} {a : Nat} (h : l.getLast? = some a) :
    a ∈ l := by
  obtain ⟨hne, heq⟩ := List.mem_getLast?_eq_getLast (Option.mem_def.mpr h)
  rw [heq]
  exact List.getLast_mem hne

theorem rbumpIf_of_not_mem {b : Nat} {l : List Nat} (h : b ∉ l) :
    rbumpIf b l = l := by
  unfold rbumpIf
  rw [if_neg]
  intro hc
  exact h (mem_of_getLast?_some hc)

theorem rbump_concat (l : List Nat) (a : Nat) : rbump (l ++ [a]) = l := by
  simp [rbump]

theorem findIdxFromAux_bound {p : Nat → Bool} :
    ∀ (l : List Nat) (i j : Nat), findIdxFromAux p l i = some j → j < i + l.length := by
  intro l
  induction l with
  | nil => intro i j h; cases h
  | cons b t ih =>
      intro i j h
      unfold findIdxFromAux at h
      split_ifs at h with hp
      · injection h with h
        subst h
        simp
      · have := ih (i + 1) j h
        simp only [List.length_cons]
        omega

theorem findFrom_lt {p : Nat → Bool} {l : List Nat} {start i : Nat}
    (h : findFrom p l start = some i) : i < l.length := by
  unfold findFrom at h
  by_cases hs : l.length ≤ start
  · rw [List.drop_eq_nil_of_le hs] at h
    cases h
  · have := findIdxFromAux_bound (l.drop start) start i h
    rw [List.length_drop] at this
    omega

theorem findIdxFromAux_clean_hit {p : Nat → Bool} :
    ∀ (w : List Nat) (c : Nat) (rest : List Nat) (i : Nat),
      (∀ b ∈ w, p b = false) → p c = true →
      findIdxFromAux p (w ++ c :: rest) i = some (i + w.length) := by
  intro w
  induction w with
  | nil =>
      intro c rest i hw hc
      simp [findIdxFromAux, hc]
  | cons b t ih =>
      intro c rest i hw hc
      have hb : p b = false := hw b (List.mem_cons_self b t)
      simp only [List.cons_append, findIdxFromAux, hb, List.append_eq]
      rw [if_neg (by simp)]
      rw [ih c rest (i + 1) (fun x hx => hw x (List.mem_cons_of_mem b hx)) hc]
      simp only [List.length_cons]
      congr 1
      omega

theorem findFrom_clean_hit {p : Nat → Bool} (w : List Nat) (c : Nat)
    (rest : List Nat) (hw : ∀ b ∈ w, p b = false) (hc : p c = true) :
    findFrom p (w ++ c :: rest) 0 = some w.length := by
  unfold findFrom
  rw [List.drop_zero, findIdxFromAux_clean_hit w c rest 0 hw hc]
  simp

theorem scanValue_progress {k : FieldKind} {n : Nat} {src : List Nat}
    {f : FieldFrame} {s2 : ScanState} {src2 : List Nat}
    (h : scanValue k n src = (some f, s2, src2)) : src2.length < src.length := by
  unfold scanValue at h
  split_ifs at h with he
  · cases h
  · cases hf : findFrom (fun b => decide (b = lfByte)) src n with
    | none =>
        rw [hf] at h
        cases h
    | some i =>
        rw [hf] at h
        injection h with h1 h2
        injection h2 with h2 h3
        subst h3
        have := findFrom_lt hf
        rw [List.length_drop]
        omega

theorem scanField_progress {n : Nat} {src : List Nat} {f : FieldFrame}
    {s2 : ScanState} {src2 : List Nat}
    (h : scanField n src = (some f, s2, src2)) : src2.length < src.length := by
  unfold scanField at h
  split_ifs at h with he
  · cases h
  · cases hf : findFrom (fun b => decide (b = colonByte) || decide (b = lfByte)) src n with
    | none =>
        rw [hf] at h
        cases h
    | some i =>
        rw [hf] at h
        dsimp only at h
        have hi := findFrom_lt hf
        split_ifs at h with hcolon
        · have := scanValue_progress h
          rw [List.length_drop] at this
          omega
        · injection h with h1 h2
          injection h2 with h2 h3
          subst h3
          rw [List.length_drop]
          omega

theorem scanNextFrame_progress {src : List Nat} {f : FieldFrame}
    {s2 : ScanState} {src2 : List Nat}
    (h : scanNextFrame src = (some f, s2, src2)) : src2.length < src.length := by
  cases src with
  | nil => simp [scanNextFrame] at h
  | cons b rest =>
      simp only [scanNextFrame] at h
      split_ifs at h with h1 h2 h3
      · have := scanValue_progress h
        simp only [List.length_cons]
        omega
      · obtain ⟨-, hhd⟩ := h2
        cases rest with
        | nil => cases hhd
        | cons x t =>
            injection h with ha hb
            injection hb with hb hc
            subst hc
            simp only [List.drop_one, List.tail_cons, List.length_cons]
            omega
      · injection h with ha hb
        injection hb with hb hc
        subst hc
        simp
      · exact scanField_progress h

theorem scanBom_progress {src : List Nat} {f : FieldFrame}
    {s2 : ScanState} {src2 : List Nat}
    (h : scanBom src = (some f, s2, src2)) : src2.length < src.length := by
  unfold scanBom at h
  split at h
  · simp at h
  · have := scanNextFrame_progress h
    simp only [List.length_cons]
    omega
  · simp at h
  · simp at h
  · exact scanNextFrame_progress h

theorem scanDecode_progress {st : ScanState} {src : List Nat} {f : FieldFrame}
    {s2 : ScanState} {src2 : List Nat}
    (h : scanDecode st src = (some f, s2, src2)) : src2.length < src.length := by
  cases st with
  | bom => exact scanBom_progress h
  | nextFrame => exact scanNextFrame_progress h
  | fieldAt n => exact scanField_progress h
  | valueAt k n => exact scanValue_progress h

theorem sseDecodeF_frame_progress :
    ∀ (fuel : Nat) (st : DecoderState) (src : List Nat) (f : SseFrame)
      (st2 : DecoderState) (src2 : List Nat),
      sseDecodeF fuel st src = (.frame f, st2, src2) → src2.length < src.length := by
  intro fuel
  induction fuel with
  | zero =>
      intro st src f st2 src2 h
      simp [sseDecodeF] at h
  | succ fuel ih =>
      intro st src f st2 src2 h
      simp only [sseDecodeF] at h
      split_ifs at h with hcl
      · simp at h
      · rcases hscan : scanDecode st.scan src with ⟨of, s2, srcr⟩
        rw [hscan] at h
        cases of with
        | none => simp at h
        | some ff =>
            dsimp only at h
            rcases hh : handleFrame { st with scan := s2 } ff with ⟨d, st3⟩
            rw [hh] at h
            have hlt := scanDecode_progress hscan
            cases d with
            | continueLoop =>
                dsimp only at h
                have := ih _ _ _ _ _ h
                omega
            | emit f2 =>
                dsimp only at h
                injection h with h1 h2
                injection h2 with h2 h3
                subst h3
                exact hlt
            | needMoreInput =>
                dsimp only at h
                simp at h
            | errorOut e =>
                dsimp only at h
                simp at h

theorem sseDecode_frame_progress {st : DecoderState} {src : List Nat}
    {f : SseFrame} {st2 : DecoderState} {src2 : List Nat}
    (h : sseDecode st src = (.frame f, st2, src2)) : src2.length < src.length :=
  sseDecodeF_frame_progress (src.length + 1) st src f st2 src2 h

theorem sseDecodeF_mono (fuel : Nat) :
    ∀ (st : DecoderState) (src : List Nat), src.length < fuel →
      sseDecodeF fuel st src = sseDecode st src := by
  induction fuel using Nat.strong_induction_on with
  | _ fuel ih =>
    intro st src h
    match fuel, h with
    | f + 1, h =>
      show sseDecodeF (f + 1) st src = sseDecodeF (src.length + 1) st src
      cases hcl : st.isClosed with
      | true => simp [sseDecodeF, hcl]
      | false =>
          rcases hscan : scanDecode st.scan src with ⟨of, s2, srcr⟩
          cases of with
          | none => simp [sseDecodeF, hcl, hscan]
          | some ff =>
              rcases hh : handleFrame { st with scan := s2 } ff with ⟨d, st2⟩
              rw [hcl] at hh
              have hlt := scanDecode_progress hscan
              cases d with
              | continueLoop =>
                  simp only [sseDecodeF, hcl, Bool.false_eq_true, if_false, hscan, hh]
                  rw [ih f (by omega) st2 srcr (by omega)]
                  rw [ih (src.length) (by omega) st2 srcr (by omega)]
              | emit f2 => simp [sseDecodeF, hcl, hscan, hh]
              | needMoreInput => simp [sseDecodeF, hcl, hscan, hh]
              | errorOut e => simp [sseDecodeF, hcl, hscan, hh]

theorem decodeAllF_mono (fuel : Nat) :
    ∀ (st : DecoderState) (src : List Nat), src.length < fuel →
      decodeAllF fuel st src = decodeAll st src := by
  induction fuel using Nat.strong_induction_on with
  | _ fuel ih =>
    intro st src h
    match fuel, h with
    | f + 1, h =>
      show decodeAllF (f + 1) st src = decodeAllF (src.length + 1) st src
      rcases hstep : sseDecode st src with ⟨out, st2, src2⟩
      cases out with
      | frame fr =>
          have hlt := sseDecode_frame_progress hstep
          simp only [decodeAllF, hstep]
          rw [ih f (by omega) st2 src2 (by omega)]
          rw [ih (src.length) (by omega) st2 src2 (by omega)]
      | err e => simp [decodeAllF, hstep]
      | needMore =>
          simp only [decodeAllF, hstep]
          split_ifs with hlt
          · rw [ih f (by omega) st2 src2 (by omega)]
            rw [ih (src.length) (by omega) st2 src2 (by omega)]
          · rfl

theorem setScan_eq (st : DecoderState) (hscan : st.scan = .nextFrame) :
    { st with scan := ScanState.nextFrame } = st := by
  rw [← hscan]

theorem sseDecode_cont {st : DecoderState} {src : List Nat} {ff : FieldFrame}
    {s2 : ScanState} {src2 : List Nat} {st2 : DecoderState}
    (hcl : st.isClosed = false)
    (hscan : scanDecode st.scan src = (some ff, s2, src2))
    (hh : handleFrame { st with scan := s2 } ff = (.continueLoop, st2)) :
    sseDecode st src = sseDecode st2 src2 := by
  have hlt := scanDecode_progress hscan
  rw [hcl] at hh
  show sseDecodeF (src.length + 1) st src = _
  simp only [sseDecodeF, hcl, Bool.false_eq_true, if_false, hscan, hh]
  exact sseDecodeF_mono src.length st2 src2 hlt

theorem sseDecode_emit {st : DecoderState} {src : List Nat} {ff : FieldFrame}
    {s2 : ScanState} {src2 : List Nat} {st2 : DecoderState} {f : SseFrame}
    (hcl : st.isClosed = false)
    (hscan : scanDecode st.scan src = (some ff, s2, src2))
    (hh : handleFrame { st with scan := s2 } ff = (.emit f, st2)) :
    sseDecode st src = (.frame f, st2, src2) := by
  rw [hcl] at hh
  show sseDecodeF (src.length + 1) st src = _
  simp [sseDecodeF, hcl, hscan, hh]

theorem decodeAll_frame_step {st : DecoderState} {src : List Nat} {f : SseFrame}
    {st2 : DecoderState} {src2 : List Nat} {fs : List SseFrame} {stf : DecoderState}
    (hstep : sseDecode st src = (.frame f, st2, src2))
    (hrest : decodeAll st2 src2 = .ok (fs, stf)) :
    decodeAll st src = .ok (f :: fs, stf) := by
  have hlt : src2.length < src.length := sseDecode_frame_progress hstep
  show decodeAllF (src.length + 1) st src = _
  simp only [decodeAllF, hstep]
  rw [decodeAllF_mono src.length st2 src2 hlt, hrest]

theorem decodeAll_nil (st : DecoderState) (hscan : st.scan = .nextFrame)
    (hcl : st.isClosed = false) : decodeAll st [] = .ok ([], st) := by
  have hstep : sseDecode st [] = (.needMore, st, []) := by
    show sseDecodeF 1 st [] = _
    simp only [sseDecodeF, hcl, Bool.false_eq_true, if_false, hscan]
    simp only [scanDecode, scanNextFrame]
    rw [← hcl, ← hscan]
  show decodeAllF 1 st [] = _
  simp [decodeAllF, hstep]

theorem splitOnNl_flat (d : List Nat) :
    (splitOnNl d).flatMap (fun l => l ++ [lfByte]) = d ++ [lfByte] := by
  induction d with
  | nil => simp [splitOnNl]
  | cons b rest ih =>
      by_cases hb : b = lfByte
      · subst hb
        simp [splitOnNl, ih]
      · simp only [splitOnNl, hb, if_false]
        cases hs : splitOnNl rest with
        | nil =>
            rw [hs] at ih
            simp at ih
        | cons h1 t1 =>
            rw [hs] at ih
            simp only [List.flatMap_cons, List.cons_append, List.append_assoc] at ih ⊢
            rw [← ih]

theorem splitOnNl_ne_nil (d : List Nat) : splitOnNl d ≠ [] := by
  cases d with
  | nil => simp [splitOnNl]
  | cons b rest =>
      by_cases hb : b = lfByte
      · subst hb
        simp [splitOnNl]
      · simp only [splitOnNl, hb, if_false]
        cases hs : splitOnNl rest with
        | nil => simp
        | cons h1 t1 => simp

theorem splitOnNl_no_nl (d : List Nat) : ∀ l ∈ splitOnNl d, lfByte ∉ l := by
  induction d with
  | nil =>
      intro l hl
      simp [splitOnNl] at hl
      subst hl
      simp
  | cons b rest ih =>
      intro l hl
      by_cases hb : b = lfByte
      · subst hb
        simp only [splitOnNl, if_pos rfl] at hl
        rcases List.mem_cons.mp hl with rfl | hl
        · simp
        · exact ih l hl
      · simp only [splitOnNl, hb, if_false] at hl
        cases hs : splitOnNl rest with
        | nil =>
            rw [hs] at hl
            simp at hl
            subst hl
            simp
            exact fun hc => hb hc.symm
        | cons h1 t1 =>
            rw [hs] at hl
            rcases List.mem_cons.mp hl with rfl | hl
            · intro hmem
              rcases List.mem_cons.mp hmem with hfe | hmem
              · exact hb hfe.symm
              · exact ih h1 (by rw [hs]; exact List.mem_cons_self h1 t1) hmem
            · exact ih l (by rw [hs]; exact List.mem_cons_of_mem h1 hl)

theorem splitOnNl_mem_subset (d : List Nat) :
    ∀ l ∈ splitOnNl d, ∀ b ∈ l, b ∈ d := by
  induction d with
  | nil =>
      intro l hl b hb
      simp [splitOnNl] at hl
      subst hl
      simp at hb
  | cons c rest ih =>
      intro l hl b hb
      by_cases hc : c = lfByte
      · subst hc
        simp only [splitOnNl, if_pos rfl] at hl
        rcases List.mem_cons.mp hl with rfl | hl
        · simp at hb
        · exact List.mem_cons_of_mem _ (ih l hl b hb)
      · simp only [splitOnNl, hc, if_false] at hl
        cases hs : splitOnNl rest with
        | nil =>
            rw [hs] at hl
            simp at hl
            subst hl
            rcases List.mem_cons.mp hb with rfl | hb
            · exact List.mem_cons_self b rest
            · simp at hb
        | cons h1 t1 =>
            rw [hs] at hl
            rcases List.mem_cons.mp hl with rfl | hl
            · rcases List.mem_cons.mp hb with rfl | hb
              · exact List.mem_cons_self b rest
              · exact List.mem_cons_of_mem _
                  (ih h1 (by rw [hs]; exact List.mem_cons_self h1 t1) b hb)
            · exact List.mem_cons_of_mem _
                (ih l (by rw [hs]; exact List.mem_cons_of_mem h1 hl) b hb)

theorem splitOnNl_single {d : List Nat} (h : lfByte ∉ d) : splitOnNl d = [d] := by
  induction d with
  | nil => simp [splitOnNl]
  | cons b rest ih =>
      have hb : b ≠ lfByte := fun hc => h (hc ▸ List.mem_cons_self b rest)
      have hrest : lfByte ∉ rest := fun hc => h (List.mem_cons_of_mem b hc)
      simp only [splitOnNl, hb, if_false]
      rw [ih hrest]

theorem natDigitsRev_digits (n : Nat) :
    ∀ b ∈ natDigitsRev n, isAsciiDigit b = true := by
  induction n using Nat.strong_induction_on with
  | _ n ih =>
      intro b hb
      rw [natDigitsRev] at hb
      split_ifs at hb with h0
      · simp at hb
      · rcases List.mem_cons.mp hb with rfl | hb
        · simp only [isAsciiDigit, Bool.and_eq_true, decide_eq_true_eq]
          have := Nat.mod_lt n (show 0 < 10 by omega)
          omega
        · exact ih (n / 10) (Nat.div_lt_self (Nat.pos_of_ne_zero h0) (by omega)) b hb

theorem natToDecimal_digits (n : Nat) :
    ∀ b ∈ natToDecimal n, isAsciiDigit b = true := by
  intro b hb
  unfold natToDecimal at hb
  split_ifs at hb with h0
  · simp at hb
    subst hb
    decide
  · exact natDigitsRev_digits n b (List.mem_reverse.mp hb)

theorem natToDecimal_ne_nil (n : Nat) : natToDecimal n ≠ [] := by
  unfold natToDecimal
  split_ifs with h0
  · simp
  · rw [natDigitsRev]
    rw [dif_neg h0]
    simp

theorem digitsValue_append_single (l : List Nat) (d : Nat) :
    digitsValue (l ++ [d]) = digitsValue l * 10 + (d - 48) := by
  simp [digitsValue, List.foldl_append]

theorem digitsValue_natDigitsRev (n : Nat) :
    digitsValue (natDigitsRev n).reverse = n := by
  induction n using Nat.strong_induction_on with
  | _ n ih =>
      rw [natDigitsRev]
      split_ifs with h0
      · subst h0
        simp [digitsValue]
      · simp only [List.reverse_cons]
        rw [digitsValue_append_single]
        rw [ih (n / 10) (Nat.div_lt_self (Nat.pos_of_ne_zero h0) (by omega))]
        have := Nat.mod_lt n (show 0 < 10 by omega)
        omega

theorem digitsValue_natToDecimal (n : Nat) : digitsValue (natToDecimal n) = n := by
  unfold natToDecimal
  split_ifs with h0
  · subst h0
    simp [digitsValue]
  · exact digitsValue_natDigitsRev n

theorem take_prefix_single (w rest : List Nat) (a : Nat) :
    (w ++ a :: rest).take (w.length + 1) = w ++ [a] := by
  have h : w ++ a :: rest = (w ++ [a]) ++ rest := by simp
  rw [h]
  exact List.take_left' (by simp)

theorem drop_prefix_single (w rest : List Nat) (a : Nat) :
    (w ++ a :: rest).drop (w.length + 1) = rest := by
  have h : w ++ a :: rest = (w ++ [a]) ++ rest := by simp
  rw [h]
  exact List.drop_left' (by simp)

theorem getD_append_len (l : List Nat) (rest : List Nat) (a d : Nat) :
    (l ++ a :: rest).getD l.length d = a := by
  induction l with
  | nil => rfl
  | cons b t ih => simpa [List.getD] using ih

theorem scanValue_line (k : FieldKind) (w rest : List Nat) (hw : lfByte ∉ w) :
    scanValue k 0 (w ++ lfByte :: rest) =
      (some (.fieldOf k (bumpIf spaceByte (w ++ [lfByte]))), .nextFrame, rest) := by
  unfold scanValue
  rw [if_neg (by simp)]
  have hclean : ∀ b ∈ w, (decide (b = lfByte)) = false := by
    intro b hb
    simp only [decide_eq_false_iff_not]
    exact fun hc => hw (hc ▸ hb)
  rw [findFrom_clean_hit w lfByte rest hclean (by simp)]
  dsimp only
  rw [take_prefix_single, drop_prefix_single]

theorem scanField_line (nm w rest : List Nat) (h10 : lfByte ∉ nm)
    (h58 : colonByte ∉ nm) :
    scanField 0 (nm ++ colonByte :: (w ++ lfByte :: rest)) =
      scanValue (fieldKindOfName nm) 0 (w ++ lfByte :: rest) := by
  unfold scanField
  rw [if_neg (by simp)]
  have hclean : ∀ b ∈ nm, (decide (b = colonByte) || decide (b = lfByte)) = false := by
    intro b hb
    simp only [Bool.or_eq_false_iff, decide_eq_false_iff_not]
    exact ⟨fun hc => h58 (hc ▸ hb), fun hc => h10 (hc ▸ hb)⟩
  rw [findFrom_clean_hit nm colonByte (w ++ lfByte :: rest) hclean (by simp)]
  dsimp only
  rw [if_pos (by rw [getD_append_len])]
  rw [List.take_left' rfl]
  have h : nm ++ colonByte :: (w ++ lfByte :: rest) =
      (nm ++ [colonByte]) ++ (w ++ lfByte :: rest) := by simp
  rw [h, List.drop_left' (by simp)]

theorem scanNextFrame_field (b : Nat) (t : List Nat) (h58 : b ≠ colonByte)
    (h13 : b ≠ crByte) (h10 : b ≠ lfByte) :
    scanNextFrame (b :: t) = scanField 0 (b :: t) := by
  simp only [scanNextFrame]
  rw [if_neg h58, if_neg (fun hc => h13 hc.1), if_neg h10]

theorem scanNextFrame_comment (t : List Nat) :
    scanNextFrame (colonByte :: t) = scanValue .commentKind 0 t := by
  simp [scanNextFrame]

theorem scanNextFrame_empty (t : List Nat) :
    scanNextFrame (lfByte :: t) = (some .emptyLine, .nextFrame, t) := by
  simp [scanNextFrame, lfByte, colonByte, crByte]

theorem scanDecode_field_line (nm w rest : List Nat) (hne : nm ≠ [])
    (h10 : lfByte ∉ nm) (h58 : colonByte ∉ nm) (h13 : crByte ∉ nm)
    (hw : lfByte ∉ w) :
    scanDecode .nextFrame (nm ++ colonByte :: (w ++ lfByte :: rest)) =
      (some (.fieldOf (fieldKindOfName nm) (bumpIf spaceByte (w ++ [lfByte]))),
        .nextFrame, rest) := by
  cases nm with
  | nil => exact absurd rfl hne
  | cons b t =>
      simp only [scanDecode]
      rw [List.cons_append]
      rw [scanNextFrame_field b (t ++ colonByte :: (w ++ lfByte :: rest))
        (fun hc => h58 (hc ▸ List.mem_cons_self b t))
        (fun hc => h13 (hc ▸ List.mem_cons_self b t))
        (fun hc => h10 (hc ▸ List.mem_cons_self b t))]
      rw [← List.cons_append]
      rw [scanField_line (b :: t) w rest h10 h58]
      exact scanValue_line _ w rest hw

theorem scanDecode_comment_line (w rest : List Nat) (hw : lfByte ∉ w) :
    scanDecode .nextFrame (colonByte :: (w ++ lfByte :: rest)) =
      (some (.fieldOf .commentKind (bumpIf spaceByte (w ++ [lfByte]))),
        .nextFrame, rest) := by
  simp only [scanDecode]
  rw [scanNextFrame_comment]
  exact scanValue_line _ w rest hw

theorem scanDecode_empty_line (rest : List Nat) :
    scanDecode .nextFrame (lfByte :: rest) = (some .emptyLine, .nextFrame, rest) := by
  simp only [scanDecode]
  exact scanNextFrame_empty rest

/-! ## C1: round-trip infrastructure — `handleFrame` on well-shaped values -/

theorem bumpIf_cons (b : Nat) (l : List Nat) : bumpIf b (b :: l) = l := by
  simp [bumpIf]

theorem handleFrame_id (st : DecoderState) (v : List Nat) (h0 : 0 ∉ v)
    (hcr : crByte ∉ v) (hu : isValidUtf8 v = true) :
    handleFrame st (.fieldOf .idKind (v ++ [lfByte])) =
      (.continueLoop, { st with eventId := v }) := by
  simp only [handleFrame, rbump_concat, rbumpIf_of_not_mem hcr]
  rw [if_neg h0]
  by_cases hv : v = st.eventId
  · rw [if_pos hv, hv]
  · rw [if_neg hv, if_pos hu]

theorem handleFrame_event (st : DecoderState) (n : List Nat)
    (het : st.eventType = none) (hcr : crByte ∉ n) (hu : isValidUtf8 n = true) :
    handleFrame st (.fieldOf .eventKind (n ++ [lfByte])) =
      (.continueLoop,
        { st with eventType := if n = messageBytes then none else some n }) := by
  simp only [handleFrame, rbump_concat, rbumpIf_of_not_mem hcr, het, eventTypeBytes]
  by_cases hn : n = messageBytes
  · rw [if_pos hn.symm, if_pos hn, ← het]
  · rw [if_neg (fun hc => hn hc.symm), if_neg hn]
    simp only [getEventType, hn, if_false, hu, if_pos, if_true]

theorem handleFrame_data (st : DecoderState) (p : List Nat)
    (hcr : crByte ∉ p) (hfit : p.length + 1 ≤ bufRemaining st) :
    handleFrame st (.fieldOf .dataKind (p ++ [lfByte])) =
      (.continueLoop, { st with dataBuf := st.dataBuf ++ (p ++ [lfByte]) }) := by
  have hlen : (p ++ [lfByte]).length = p.length + 1 := by simp
  simp only [handleFrame]
  rw [if_neg (by rw [hlen]; omega)]
  rw [if_neg ?hcrlf]
  case hcrlf =>
    rintro ⟨h2, hdrop⟩
    rcases List.eq_nil_or_concat p with rfl | ⟨q, a, rfl⟩
    · simp at h2
    · simp only [List.concat_eq_append] at hdrop hcr
      rw [show (q ++ [a]) ++ [lfByte] = q ++ [a, lfByte] by simp] at hdrop
      rw [show (q ++ [a, lfByte]).length - 2 = q.length by simp] at hdrop
      rw [List.drop_left] at hdrop
      injection hdrop with h1 _
      exact hcr (h1 ▸ (by simp : a ∈ q ++ [a]))

theorem handleFrame_retry (st : DecoderState) (v : List Nat) (n : Nat)
    (hcr : crByte ∉ v) (hp : parseU64 v = some n) :
    handleFrame st (.fieldOf .retryKind (v ++ [lfByte])) =
      (.emit (.retry (durationFromMillis n)), st) := by
  simp only [handleFrame, rbump_concat, rbumpIf_of_not_mem hcr, hp]

theorem handleFrame_comment (st : DecoderState) (c : List Nat) (hcr : crByte ∉ c) :
    handleFrame st (.fieldOf .commentKind (c ++ [lfByte])) =
      (.emit (.comment c), st) := by
  simp only [handleFrame, rbump_concat, rbumpIf_of_not_mem hcr]

theorem handleFrame_empty_emit (st : DecoderState) (d : List Nat)
    (hdb : st.dataBuf = d ++ [lfByte]) (hne : d ≠ []) :
    handleFrame st .emptyLine =
      (.emit (.event (if st.eventId.isEmpty then none else some st.eventId)
          (eventTypeBytes st.eventType) d),
        { st with dataBuf := [], eventType := none }) := by
  simp only [handleFrame, hdb, rbump_concat]
  rw [if_neg (by simp [hne])]

/-- Length contributed to `buf_len` by the event type
(`Cow::Borrowed("message")` counts as zero). -/
def etLen : Option (List Nat) → Nat
  | none => 0
  | some v => v.length

/-- A decoder state between frames: scanner at `NextFrame`, open, with
the given buffers. -/
def midSt (db : List Nat) (et : Option (List Nat)) (id : List Nat) (m : Nat) :
    DecoderState :=
  { scan := .nextFrame, dataBuf := db, eventType := et, eventId := id,
    maxBufLen := m, isClosed := false }

theorem bufLen_midSt (db : List Nat) (et : Option (List Nat)) (id : List Nat)
    (m : Nat) : bufLen (midSt db et id m) = db.length + id.length + etLen et := by
  cases et <;> rfl

/-- Conditions under which a frame survives the encode/decode round trip
unchanged: single-line comments without carriage returns; retries of whole
milliseconds that fit in a `u64`; events with an explicit, non-empty,
newline/carriage-return/NUL-free, UTF-8-valid id, a single-line UTF-8-valid
name, non-empty data without carriage returns, and total buffered size
within the decoder's limit. -/
abbrev goodFrame (m : Nat) : SseFrame → Prop
  | .comment c => lfByte ∉ c ∧ crByte ∉ c
  | .retry nanos => nanos % 1000000 = 0 ∧ durationAsMillis nanos < u64Limit
  | .event none _ _ => False
  | .event (some v) n d =>
      v ≠ [] ∧ 0 ∉ v ∧ lfByte ∉ v ∧ crByte ∉ v ∧ isValidUtf8 v = true ∧
      lfByte ∉ n ∧ crByte ∉ n ∧ isValidUtf8 n = true ∧
      d ≠ [] ∧ crByte ∉ d ∧ v.length + n.length + d.length + 1 ≤ m

/-- The decoder's sticky event id after one frame. -/
def idAfter (id : List Nat) : SseFrame → List Nat
  | .comment _ => id
  | .retry _ => id
  | .event none _ _ => id
  | .event (some v) _ _ => v

/-! ## C1: one encoded line through one decoder step -/

theorem decode_id_line (db : List Nat) (et : Option (List Nat)) (id v : List Nat)
    (m : Nat) (rest : List Nat) (h0 : 0 ∉ v) (hlf : lfByte ∉ v) (hcr : crByte ∉ v)
    (hu : isValidUtf8 v = true) :
    sseDecode (midSt db et id m) (strBytes "id: " ++ (v ++ lfByte :: rest)) =
      sseDecode (midSt db et v m) rest := by
  have hwv : lfByte ∉ spaceByte :: v := by
    intro hc
    rcases List.mem_cons.mp hc with h | h
    · exact absurd h (by decide)
    · exact hlf h
  have hscan : scanDecode (midSt db et id m).scan
      (strBytes "id: " ++ (v ++ lfByte :: rest)) =
      (some (.fieldOf .idKind (v ++ [lfByte])), .nextFrame, rest) :=
    scanDecode_field_line (strBytes "id") (spaceByte :: v) rest (by decide)
      (by decide) (by decide) (by decide) hwv
  have hh : handleFrame { midSt db et id m with scan := ScanState.nextFrame }
      (.fieldOf .idKind (v ++ [lfByte])) = (.continueLoop, midSt db et v m) :=
    handleFrame_id _ v h0 hcr hu
  exact sseDecode_cont rfl hscan hh

theorem decode_event_line (db id n : List Nat) (m : Nat) (rest : List Nat)
    (hlf : lfByte ∉ n) (hcr : crByte ∉ n) (hu : isValidUtf8 n = true) :
    sseDecode (midSt db none id m) (strBytes "event: " ++ (n ++ lfByte :: rest)) =
      sseDecode (midSt db (if n = messageBytes then none else some n) id m) rest := by
  have hwv : lfByte ∉ spaceByte :: n := by
    intro hc
    rcases List.mem_cons.mp hc with h | h
    · exact absurd h (by decide)
    · exact hlf h
  have hscan : scanDecode (midSt db none id m).scan
      (strBytes "event: " ++ (n ++ lfByte :: rest)) =
      (some (.fieldOf .eventKind (n ++ [lfByte])), .nextFrame, rest) :=
    scanDecode_field_line (strBytes "event") (spaceByte :: n) rest (by decide)
      (by decide) (by decide) (by decide) hwv
  have hh : handleFrame { midSt db none id m with scan := ScanState.nextFrame }
      (.fieldOf .eventKind (n ++ [lfByte])) =
      (.continueLoop, midSt db (if n = messageBytes then none else some n) id m) :=
    handleFrame_event _ n rfl hcr hu
  exact sseDecode_cont rfl hscan hh

theorem decode_data_line (db : List Nat) (et : Option (List Nat)) (id p : List Nat)
    (m : Nat) (rest : List Nat) (hlf : lfByte ∉ p) (hcr : crByte ∉ p)
    (hfit : db.length + id.length + etLen et + (p.length + 1) ≤ m) :
    sseDecode (midSt db et id m) (strBytes "data: " ++ (p ++ lfByte :: rest)) =
      sseDecode (midSt (db ++ (p ++ [lfByte])) et id m) rest := by
  have hwv : lfByte ∉ spaceByte :: p := by
    intro hc
    rcases List.mem_cons.mp hc with h | h
    · exact absurd h (by decide)
    · exact hlf h
  have hrem : p.length + 1 ≤ bufRemaining (midSt db et id m) := by
    unfold bufRemaining
    rw [bufLen_midSt]
    show p.length + 1 ≤ m - (db.length + id.length + etLen et)
    omega
  have hscan : scanDecode (midSt db et id m).scan
      (strBytes "data: " ++ (p ++ lfByte :: rest)) =
      (some (.fieldOf .dataKind (p ++ [lfByte])), .nextFrame, rest) :=
    scanDecode_field_line (strBytes "data") (spaceByte :: p) rest (by decide)
      (by decide) (by decide) (by decide) hwv
  have hh : handleFrame { midSt db et id m with scan := ScanState.nextFrame }
      (.fieldOf .dataKind (p ++ [lfByte])) =
      (.continueLoop, midSt (db ++ (p ++ [lfByte])) et id m) :=
    handleFrame_data _ p hcr hrem
  exact sseDecode_cont rfl hscan hh

theorem decode_comment_emit (db : List Nat) (et : Option (List Nat)) (id c : List Nat)
    (m : Nat) (rest : List Nat) (hlf : lfByte ∉ c) (hcr : crByte ∉ c) :
    sseDecode (midSt db et id m) (strBytes ": " ++ (c ++ lfByte :: rest)) =
      (.frame (.comment c), midSt db et id m, rest) := by
  have hwv : lfByte ∉ spaceByte :: c := by
    intro hc
    rcases List.mem_cons.mp hc with h | h
    · exact absurd h (by decide)
    · exact hlf h
  have hscan : scanDecode (midSt db et id m).scan
      (strBytes ": " ++ (c ++ lfByte :: rest)) =
      (some (.fieldOf .commentKind (c ++ [lfByte])), .nextFrame, rest) :=
    scanDecode_comment_line (spaceByte :: c) rest hwv
  have hh : handleFrame { midSt db et id m with scan := ScanState.nextFrame }
      (.fieldOf .commentKind (c ++ [lfByte])) =
      (.emit (.comment c), midSt db et id m) :=
    handleFrame_comment _ c hcr
  exact sseDecode_emit rfl hscan hh

theorem parseU64_natToDecimal (ms : Nat) (h : ms < u64Limit) :
    parseU64 (natToDecimal ms) = some ms := by
  have hd := natToDecimal_digits ms
  have hne := natToDecimal_ne_nil ms
  have hv := digitsValue_natToDecimal ms
  have hhd : ∀ b, (natToDecimal ms).head? = some b → isAsciiDigit b = true := by
    intro b hb
    cases hl : natToDecimal ms with
    | nil => rw [hl] at hb; exact absurd hb (by simp)
    | cons x xs =>
        rw [hl] at hb
        simp only [List.head?] at hb
        injection hb with hxb
        subst hxb
        exact hd x (by rw [hl]; exact List.mem_cons_self x xs)
  have h43 : ¬((natToDecimal ms).head? = some 43) := fun hc =>
    absurd (hhd 43 hc) (by decide)
  unfold parseU64
  rw [if_neg h43,
      if_pos ⟨hne, List.all_eq_true.mpr hd, by rw [hv]; exact h⟩, hv]

theorem decode_retry_emit (db : List Nat) (et : Option (List Nat)) (id : List Nat)
    (m ms : Nat) (rest : List Nat) (h : ms < u64Limit) :
    sseDecode (midSt db et id m)
        (strBytes "retry: " ++ (natToDecimal ms ++ lfByte :: rest)) =
      (.frame (.retry (durationFromMillis ms)), midSt db et id m, rest) := by
  have hdig := natToDecimal_digits ms
  have hcr : crByte ∉ natToDecimal ms := fun hc =>
    absurd (hdig crByte hc) (by decide)
  have hwv : lfByte ∉ spaceByte :: natToDecimal ms := by
    intro hc
    rcases List.mem_cons.mp hc with h' | h'
    · exact absurd h' (by decide)
    · exact absurd (hdig lfByte h') (by decide)
  have hscan : scanDecode (midSt db et id m).scan
      (strBytes "retry: " ++ (natToDecimal ms ++ lfByte :: rest)) =
      (some (.fieldOf .retryKind (natToDecimal ms ++ [lfByte])), .nextFrame, rest) :=
    scanDecode_field_line (strBytes "retry") (spaceByte :: natToDecimal ms) rest
      (by decide) (by decide) (by decide) (by decide) hwv
  have hh : handleFrame { midSt db et id m with scan := ScanState.nextFrame }
      (.fieldOf .retryKind (natToDecimal ms ++ [lfByte])) =
      (.emit (.retry (durationFromMillis ms)), midSt db et id m) :=
    handleFrame_retry _ (natToDecimal ms) ms hcr (parseU64_natToDecimal ms h)
  exact sseDecode_emit rfl hscan hh

theorem decode_empty_emit (d : List Nat) (et : Option (List Nat)) (id : List Nat)
    (m : Nat) (rest : List Nat) (hne : d ≠ []) :
    sseDecode (midSt (d ++ [lfByte]) et id m) (lfByte :: rest) =
      (.frame (.event (if id.isEmpty then none else some id) (eventTypeBytes et) d),
        midSt [] none id m, rest) := by
  have hh : handleFrame
      { midSt (d ++ [lfByte]) et id m with scan := ScanState.nextFrame } .emptyLine =
      (.emit (.event (if id.isEmpty then none else some id) (eventTypeBytes et) d),
        midSt [] none id m) :=
    handleFrame_empty_emit _ d rfl hne
  exact sseDecode_emit rfl (scanDecode_empty_line rest) hh

/-! ## C1: all `data:` lines of one event, and whole-frame wire shapes -/

theorem decode_data_lines (et : Option (List Nat)) (id : List Nat) (m : Nat) :
    ∀ (ps : List (List Nat)) (db rest : List Nat),
    (∀ p ∈ ps, lfByte ∉ p ∧ crByte ∉ p) →
    db.length + (ps.flatMap (fun p => p ++ [lfByte])).length +
      id.length + etLen et ≤ m →
    sseDecode (midSt db et id m)
        ((ps.flatMap fun p => strBytes "data: " ++ p ++ [lfByte]) ++ rest) =
      sseDecode (midSt (db ++ ps.flatMap (fun p => p ++ [lfByte])) et id m) rest
  | [], db, rest, _, _ => by simp
  | p :: ps, db, rest, hp, hb => by
      have hp1 := hp p (List.mem_cons_self p ps)
      have hps : ∀ q ∈ ps, lfByte ∉ q ∧ crByte ∉ q := fun q hq =>
        hp q (List.mem_cons_of_mem p hq)
      have hlen : ((p :: ps).flatMap (fun p => p ++ [lfByte])).length =
          (p.length + 1) + (ps.flatMap (fun p => p ++ [lfByte])).length := by
        simp
        omega
      have hsh : ((p :: ps).flatMap fun p => strBytes "data: " ++ p ++ [lfByte]) ++
          rest = strBytes "data: " ++
            (p ++ lfByte :: ((ps.flatMap fun p => strBytes "data: " ++ p ++ [lfByte])
              ++ rest)) := by
        simp
      rw [hsh, decode_data_line db et id p m _ hp1.1 hp1.2 (by omega)]
      rw [decode_data_lines et id m ps (db ++ (p ++ [lfByte])) rest hps
        (by simp only [List.length_append, List.length_cons, List.length_nil]; omega)]
      have : (db ++ (p ++ [lfByte])) ++ ps.flatMap (fun p => p ++ [lfByte]) =
          db ++ (p :: ps).flatMap (fun p => p ++ [lfByte]) := by
        simp
      rw [this]

theorem sseEncode_comment_wire (es : EncoderState) (c : List Nat)
    (hlf : lfByte ∉ c) (rest : List Nat) :
    (sseEncode es (.comment c)).1 ++ rest = strBytes ": " ++ (c ++ lfByte :: rest) := by
  show ((splitOnNl c).flatMap fun line => strBytes ": " ++ line ++ [lfByte]) ++ rest = _
  rw [splitOnNl_single hlf]
  simp

theorem sseEncode_retry_wire (es : EncoderState) (nanos : Nat) (rest : List Nat) :
    (sseEncode es (.retry nanos)).1 ++ rest =
      strBytes "retry: " ++ (natToDecimal (durationAsMillis nanos) ++ lfByte :: rest) := by
  show (strBytes "retry: " ++ natToDecimal (durationAsMillis nanos) ++ [lfByte]) ++
      rest = _
  simp

theorem sseEncode_event_wire (es : EncoderState) (v n d : List Nat) (hv : v ≠ [])
    (rest : List Nat) :
    (sseEncode es (.event (some v) n d)).1 ++ rest =
      strBytes "id: " ++ (v ++ lfByte ::
        (strBytes "event: " ++ (n ++ lfByte ::
          (((splitOnNl d).flatMap fun piece => strBytes "data: " ++ piece ++ [lfByte])
            ++ lfByte :: rest)))) := by
  have hvemp : v.isEmpty = false := by
    cases v with
    | nil => exact absurd rfl hv
    | cons a l => rfl
  simp only [sseEncode, hvemp, Bool.false_eq_true, if_false, List.append_assoc,
    List.cons_append, List.nil_append]

theorem etLen_ite (n : List Nat) :
    etLen (if n = messageBytes then none else some n) ≤ n.length := by
  split_ifs <;> simp [etLen]

/-- Decoding the encoder's bytes for one good frame emits exactly that
frame and returns the decoder to the between-frames state. -/
theorem decode_good_frame (es : EncoderState) (m : Nat) (f : SseFrame)
    (id0 : List Nat) (rest : List Nat) (hf : goodFrame m f) :
    sseDecode (midSt [] none id0 m) ((sseEncode es f).1 ++ rest) =
      (.frame f, midSt [] none (idAfter id0 f) m, rest) := by
  cases f with
  | comment c =>
      obtain ⟨hlf, hcr⟩ := hf
      rw [sseEncode_comment_wire es c hlf rest]
      exact decode_comment_emit [] none id0 c m rest hlf hcr
  | retry nanos =>
      obtain ⟨hmod, hlt⟩ := hf
      rw [sseEncode_retry_wire es nanos rest,
          decode_retry_emit [] none id0 m (durationAsMillis nanos) rest hlt]
      have hdm : durationFromMillis (durationAsMillis nanos) = nanos :=
        Nat.div_mul_cancel (Nat.dvd_of_mod_eq_zero hmod)
      rw [hdm]
      rfl
  | event oid n d =>
      cases oid with
      | none => exact hf.elim
      | some v =>
          obtain ⟨hv0, hvz, hvlf, hvcr, hvu, hnlf, hncr, hnu, hd0, hdcr, hfit⟩ := hf
          have hpieces : ∀ p ∈ splitOnNl d, lfByte ∉ p ∧ crByte ∉ p := fun p hp =>
            ⟨splitOnNl_no_nl d p hp,
             fun hc => hdcr (splitOnNl_mem_subset d p hp crByte hc)⟩
          have hflat : (splitOnNl d).flatMap (fun p => p ++ [lfByte]) =
              d ++ [lfByte] := splitOnNl_flat d
          have hvemp : v.isEmpty = false := by
            cases v with
            | nil => exact absurd rfl hv0
            | cons a l => rfl
          rw [sseEncode_event_wire es v n d hv0 rest]
          rw [decode_id_line [] none id0 v m _ hvz hvlf hvcr hvu]
          rw [decode_event_line [] v n m _ hnlf hncr hnu]
          have hbound : ([] : List Nat).length +
              ((splitOnNl d).flatMap (fun p => p ++ [lfByte])).length +
              v.length + etLen (if n = messageBytes then none else some n) ≤ m := by
            rw [hflat]
            have het := etLen_ite n
            simp only [List.length_nil, List.length_append, List.length_cons]
            omega
          rw [decode_data_lines (if n = messageBytes then none else some n) v m
            (splitOnNl d) [] _ hpieces hbound]
          rw [show ([] : List Nat) ++ (splitOnNl d).flatMap (fun p => p ++ [lfByte]) =
              d ++ [lfByte] from by rw [List.nil_append, hflat]]
          rw [decode_empty_emit d (if n = messageBytes then none else some n) v m
            rest hd0]
          simp only [hvemp, Bool.false_eq_true, if_false, idAfter]
          by_cases hn : n = messageBytes
          · rw [if_pos hn]
            simp only [eventTypeBytes]
            rw [hn]
          · rw [if_neg hn]
            simp only [eventTypeBytes]

/-! ## C1: whole-sequence round trip and the initial BOM state -/

theorem decodeAll_encodeAll (m : Nat) (fs : List SseFrame) :
    ∀ (es : EncoderState) (id0 : List Nat), (∀ f ∈ fs, goodFrame m f) →
    decodeAll (midSt [] none id0 m) (encodeAll es fs).1 =
      .ok (fs, midSt [] none (fs.foldl idAfter id0) m) := by
  induction fs with
  | nil =>
      intro es id0 _
      simp only [encodeAll, List.foldl]
      exact decodeAll_nil _ rfl rfl
  | cons f fs ih =>
      intro es id0 h
      have hg : goodFrame m f := h f (List.mem_cons_self f fs)
      have hrest : ∀ g ∈ fs, goodFrame m g := fun g hgm =>
        h g (List.mem_cons_of_mem f hgm)
      rcases hse : sseEncode es f with ⟨bytes, es2⟩
      have hwire : (encodeAll es (f :: fs)).1 = bytes ++ (encodeAll es2 fs).1 := by
        rcases hea : encodeAll es2 fs with ⟨restw, esf⟩
        simp only [encodeAll, hse, hea]
      have hstep : sseDecode (midSt [] none id0 m) (bytes ++ (encodeAll es2 fs).1) =
          (.frame f, midSt [] none (idAfter id0 f) m, (encodeAll es2 fs).1) := by
        have hd := decode_good_frame es m f id0 (encodeAll es2 fs).1 hg
        rw [hse] at hd
        exact hd
      have hrec := ih es2 (idAfter id0 f) hrest
      rw [hwire, decodeAll_frame_step hstep hrec]
      rw [List.foldl_cons]

theorem scanBom_not_ef {b : Nat} (t : List Nat) (hb : b ≠ 0xEF) :
    scanBom (b :: t) = scanNextFrame (b :: t) := by
  unfold scanBom
  split
  · rename_i h
    exact absurd h (by simp)
  · rename_i rest h
    exact absurd (List.cons.inj h).1 hb
  · rename_i h
    exact absurd (List.cons.inj h).1 hb
  · rename_i h
    exact absurd (List.cons.inj h).1 hb
  · rfl

theorem sseDecode_bom (m : Nat) (b : Nat) (t : List Nat) (hb : b ≠ 0xEF) :
    sseDecode (initDecoder m) (b :: t) = sseDecode (midSt [] none [] m) (b :: t) := by
  show sseDecodeF ((b :: t).length + 1) (initDecoder m) (b :: t) =
    sseDecodeF ((b :: t).length + 1) (midSt [] none [] m) (b :: t)
  rw [show (b :: t).length + 1 = t.length + 1 + 1 from by simp]
  simp only [sseDecodeF]
  rw [show scanDecode (initDecoder m).scan (b :: t) = scanBom (b :: t) from rfl,
      show scanDecode (midSt [] none [] m).scan (b :: t) = scanNextFrame (b :: t)
        from rfl,
      scanBom_not_ef t hb]
  rcases hsn : scanNextFrame (b :: t) with ⟨o, s2, src2⟩
  cases o <;> rfl

theorem good_wire_cons (es : EncoderState) (m : Nat) (f : SseFrame)
    (hf : goodFrame m f) :
    ∃ b t, (sseEncode es f).1 = b :: t ∧ b ≠ 0xEF := by
  cases f with
  | comment c =>
      refine ⟨58, spaceByte :: (c ++ [lfByte]), ?_, by decide⟩
      have h := sseEncode_comment_wire es c hf.1 []
      rw [List.append_nil] at h
      rw [h]
      rfl
  | retry nanos =>
      refine ⟨114, strBytes "etry: " ++
        (natToDecimal (durationAsMillis nanos) ++ [lfByte]), ?_, by decide⟩
      have h := sseEncode_retry_wire es nanos []
      rw [List.append_nil] at h
      rw [h]
      rfl
  | event oid n d =>
      cases oid with
      | none => exact hf.elim
      | some v =>
          refine ⟨105, strBytes "d: " ++ (v ++ lfByte :: (strBytes "event: " ++
            (n ++ lfByte :: (((splitOnNl d).flatMap fun piece =>
              strBytes "data: " ++ piece ++ [lfByte]) ++ [lfByte])))), ?_, by decide⟩
          have h := sseEncode_event_wire es v n d hf.1 []
          rw [List.append_nil] at h
          rw [h]
          rfl

/-- C1: round-trip of the SSE codec.  As stated (arbitrary frame
sequences, equivalence up to comment whitespace and `data` newline
normalization) the claim is false — `c1_counterexample` shows an event
whose encoding decodes to no frame at all.  The corrected claim: every
sequence of frames that are good for the decoder's size limit — events
carrying an explicit non-empty NUL/newline/CR-free UTF-8 id, a
single-line CR-free UTF-8 name and non-empty CR-free data, with
`id.len + name.len + data.len + 1 ≤ max_buf_len`; single-line CR-free
comments; whole-millisecond retries below `2^64` ms — decodes from its
encoding to exactly the same sequence. -/
theorem c1_round_trip (m : Nat) (frames : List SseFrame)
    (h : ∀ f ∈ frames, goodFrame m f) :
    ∃ stf, decodeAll (initDecoder m) (encodeAll initEncoder frames).1 =
      .ok (frames, stf) := by
  cases frames with
  | nil => exact ⟨initDecoder m, rfl⟩
  | cons f fs =>
      have hg : goodFrame m f := h f (List.mem_cons_self f fs)
      have hrest : ∀ g ∈ fs, goodFrame m g := fun g hgm =>
        h g (List.mem_cons_of_mem f hgm)
      rcases hse : sseEncode initEncoder f with ⟨bytes, es2⟩
      have hwire : (encodeAll initEncoder (f :: fs)).1 =
          bytes ++ (encodeAll es2 fs).1 := by
        rcases hea : encodeAll es2 fs with ⟨restw, esf⟩
        simp only [encodeAll, hse, hea]
      have hstep : sseDecode (midSt [] none [] m) (bytes ++ (encodeAll es2 fs).1) =
          (.frame f, midSt [] none (idAfter [] f) m, (encodeAll es2 fs).1) := by
        have hd := decode_good_frame initEncoder m f [] (encodeAll es2 fs).1 hg
        rw [hse] at hd
        exact hd
      obtain ⟨b, t, hbt, hbne⟩ := good_wire_cons initEncoder m f hg
      rw [hse] at hbt
      have hbt' : bytes = b :: t := hbt
      have hbridge : sseDecode (initDecoder m) (bytes ++ (encodeAll es2 fs).1) =
          (.frame f, midSt [] none (idAfter [] f) m, (encodeAll es2 fs).1) := by
        rw [hbt']
        rw [show (b :: t) ++ (encodeAll es2 fs).1 = b :: (t ++ (encodeAll es2 fs).1)
          from rfl]
        rw [sseDecode_bom m b (t ++ (encodeAll es2 fs).1) hbne]
        rw [← List.cons_append, ← hbt']
        exact hstep
      have hrec := decodeAll_encodeAll m fs es2 (idAfter [] f) hrest
      refine ⟨midSt [] none (fs.foldl idAfter (idAfter [] f)) m, ?_⟩
      rw [hwire]
      exact decodeAll_frame_step hbridge hrec

/-- C1 counterexample: the event `Frame::Event { id: None, name:
"message", data: "" }` encodes to `"event: message\ndata: \n\n"`, whose
decoding yields no frame at all (the decoder strips the data buffer's
trailing newline before the emptiness test), so the round trip loses the
frame — no equivalence that keeps the frame count can hold. -/
theorem c1_counterexample :
    decodedFrames (initDecoder 100)
        (encodeAll initEncoder [SseFrame.event none messageBytes []]).1 ≠
      some [SseFrame.event none messageBytes []] := by decide

/-- Concrete good frames exercising every constructor for the C1 witness. -/
def c1frames : List SseFrame :=
  [.event (some (strBytes "42")) (strBytes "greeting") (strBytes "hi\nthere"),
   .comment (strBytes "keepalive"),
   .retry (durationFromMillis 1500),
   .event (some (strBytes "43")) messageBytes (strBytes "bye")]

/-- C1 witness: the corrected round trip at a concrete frame sequence. -/
theorem c1_round_trip_witness :
    ∃ stf, decodeAll (initDecoder 64) (encodeAll initEncoder c1frames).1 =
      .ok (c1frames, stf) :=
  c1_round_trip 64 c1frames (by
    intro f hf
    simp only [c1frames, List.mem_cons, List.not_mem_nil, or_false] at hf
    rcases hf with rfl | rfl | rfl | rfl <;> exact (by decide))
